import Mathlib

set_option autoImplicit false

/-!
# Filesystem utilities of libotutil (`ot-gio-utils.c`)

A shallow embedding of the five operations of `src/libotutil/ot-gio-utils.c`
over an explicit model of the GIO/GLib calls they are built on.

* The GIO virtual file system is a record of functions (`Provider`) over an
  abstract filesystem state `σ` and an abstract handle type `F`; every
  operation of the C file is a function of such a record.
* A `World` pairs the filesystem state with the list of provider calls issued
  so far, so that "no call is issued" and "exactly this call is issued" are
  statements about a value.
* `GError **error` out-parameters become an `Option GError` in the result;
  optional out-pointers become a `Bool` input (was a pointer passed?) and an
  `Option` output.
-/

namespace OtGio

/-! ## GLib / GIO vocabulary -/

/-- Error domains (`GQuark`s) that matter to this file. -/
inductive GQuark
  | G_IO_ERROR
  | G_FILE_ERROR
  deriving DecidableEq, Repr

/-- Error codes of the `G_IO_ERROR` domain (`GIOErrorEnum`), by name. -/
inductive GIOErrorEnum
  | G_IO_ERROR_FAILED
  | G_IO_ERROR_NOT_FOUND
  | G_IO_ERROR_EXISTS
  | G_IO_ERROR_IS_DIRECTORY
  | G_IO_ERROR_NOT_DIRECTORY
  | G_IO_ERROR_NOT_EMPTY
  | G_IO_ERROR_INVALID_FILENAME
  | G_IO_ERROR_INVALID_ARGUMENT
  | G_IO_ERROR_PERMISSION_DENIED
  | G_IO_ERROR_NOT_SUPPORTED
  | G_IO_ERROR_CANCELLED
  | G_IO_ERROR_WOULD_RECURSE
  | G_IO_ERROR_WOULD_MERGE
  | G_IO_ERROR_INVALID_DATA
  deriving DecidableEq, Repr

export GQuark (G_IO_ERROR G_FILE_ERROR)
export GIOErrorEnum (G_IO_ERROR_FAILED G_IO_ERROR_NOT_FOUND G_IO_ERROR_EXISTS
  G_IO_ERROR_IS_DIRECTORY G_IO_ERROR_NOT_DIRECTORY G_IO_ERROR_NOT_EMPTY
  G_IO_ERROR_INVALID_FILENAME G_IO_ERROR_INVALID_ARGUMENT G_IO_ERROR_PERMISSION_DENIED
  G_IO_ERROR_NOT_SUPPORTED G_IO_ERROR_CANCELLED G_IO_ERROR_WOULD_RECURSE
  G_IO_ERROR_WOULD_MERGE G_IO_ERROR_INVALID_DATA)

/-- A `GError`: domain, code and human-readable message. -/
structure GError where
  domain : GQuark
  code : GIOErrorEnum
  message : String
  deriving DecidableEq, Repr

/-- `g_error_matches (error, domain, code)`: false on a `NULL` error. -/
def g_error_matches (error : Option GError) (domain : GQuark) (code : GIOErrorEnum) : Bool :=
  match error with
  | none => false
  | some e => decide (e.domain = domain) && decide (e.code = code)

/-- `g_set_error (error, domain, code, message)`. -/
def g_set_error (domain : GQuark) (code : GIOErrorEnum) (message : String) : GError :=
  { domain := domain, code := code, message := message }

/-- `GFileType`, the value of the `standard::type` attribute. -/
inductive GFileType
  | G_FILE_TYPE_UNKNOWN
  | G_FILE_TYPE_REGULAR
  | G_FILE_TYPE_DIRECTORY
  | G_FILE_TYPE_SYMBOLIC_LINK
  | G_FILE_TYPE_SPECIAL
  | G_FILE_TYPE_SHORTCUT
  | G_FILE_TYPE_MOUNTABLE
  deriving DecidableEq, Repr

export GFileType (G_FILE_TYPE_UNKNOWN G_FILE_TYPE_REGULAR G_FILE_TYPE_DIRECTORY
  G_FILE_TYPE_SYMBOLIC_LINK G_FILE_TYPE_SPECIAL G_FILE_TYPE_SHORTCUT G_FILE_TYPE_MOUNTABLE)

/-- A `GFileInfo` as far as this file reads it: `standard::type` and `standard::name`. -/
structure GFileInfo where
  type : GFileType
  name : String
  deriving DecidableEq, Repr

/-- A `GFileEnumerator`: the file infos `g_file_enumerator_next_file` will still
hand out, in order, and how the enumeration ends after them: `none` for the
plain end of the directory, `some e` when the call that would follow fails with `e`. -/
structure GFileEnumerator where
  pending : List GFileInfo
  final : Option GError
  deriving DecidableEq, Repr

/-- `g_file_enumerator_next_file`: the next info (or the end, or the error) and
the enumerator advanced by one step. -/
def g_file_enumerator_next_file (en : GFileEnumerator) :
    Except GError (Option GFileInfo) × GFileEnumerator :=
  match en.pending with
  | info :: rest => (.ok (some info), { en with pending := rest })
  | [] =>
    match en.final with
    | none => (.ok none, en)
    | some e => (.error e, { en with final := none })

/-- A `GCancellable`, observed at the moment of the call. -/
structure GCancellable where
  cancelled : Bool
  deriving DecidableEq, Repr

/-- `g_cancellable_set_error_if_cancelled`: the error it sets, if it sets one.
A `NULL` cancellable is never cancelled. -/
def g_cancellable_set_error_if_cancelled (cancellable : Option GCancellable) : Option GError :=
  match cancellable with
  | some c =>
    if c.cancelled then some (g_set_error G_IO_ERROR G_IO_ERROR_CANCELLED "Operation was cancelled")
    else none
  | none => none

/-- `GFileCopyFlags`. -/
def G_FILE_COPY_OVERWRITE : Nat := 1
def G_FILE_COPY_BACKUP : Nat := 2
def G_FILE_COPY_NOFOLLOW_SYMLINKS : Nat := 4
def G_FILE_COPY_ALL_METADATA : Nat := 8

/-- `GFileQueryInfoFlags`. -/
def G_FILE_QUERY_INFO_NONE : Nat := 0
def G_FILE_QUERY_INFO_NOFOLLOW_SYMLINKS : Nat := 1

/-- Flags of `open(2)` used by `ot_gfile_create_tmp`; `O_BINARY` is defined to 0 by
the file itself when the platform has none. -/
def O_WRONLY : Nat := 1
def O_BINARY : Nat := 0

/-- A `GUnixOutputStream` made by `g_unix_output_stream_new (fd, close_fd)`. -/
structure GOutputStream where
  fd : Nat
  close_fd : Bool
  deriving DecidableEq, Repr

/-! ## The provider and the world -/

/-- The GIO/GLib calls the file makes, as functions of the filesystem state `σ`
over handles `F`. Calls that only read return a result; calls that may write
return a result and the next state. `fast_queryinfo` is the attribute list the
header constant `OSTREE_GIO_FAST_QUERYINFO` expands to and `error_from_errno` is the
mapping `ot_util_set_error_from_errno` applies; both live outside this file and
are taken as parameters. -/
structure Provider (σ : Type) (F : Type) where
  g_file_get_path : F → String
  g_file_get_basename : F → String
  g_file_get_child : F → String → F
  g_vfs_get_file_for_path : String → F
  g_file_make_directory : F → Option GCancellable → σ → Except GError Unit × σ
  g_file_make_directory_with_parents : F → Option GCancellable → σ → Except GError Unit × σ
  g_file_load_contents : F → Option GCancellable → σ → Except GError (List Nat × String)
  g_file_query_info : F → String → Nat → Option GCancellable → σ → Except GError GFileInfo
  g_file_enumerate_children :
    F → String → Nat → Option GCancellable → σ → Except GError GFileEnumerator
  g_file_move : F → F → Nat → Option GCancellable → σ → Except GError Unit × σ
  g_mkstemp_full : String → Nat → Nat → σ → Except Nat (String × Nat) × σ
  fast_queryinfo : String
  error_from_errno : Nat → GError

/-- One provider call, with the arguments the C code passed. -/
inductive Call (F : Type)
  | make_directory (dir : F)
  | make_directory_with_parents (dir : F)
  | load_contents (file : F)
  | query_info (file : F) (attributes : String) (flags : Nat)
  | enumerate_children (file : F) (attributes : String) (flags : Nat)
  | next_file (dir : F)
  | move (source destination : F) (flags : Nat)
  | mkstemp_full (tmpl : String) (flags : Nat) (mode : Nat)
  | close (fd : Nat)
  deriving DecidableEq, Repr

/-- The filesystem state together with the provider calls issued so far. -/
structure World (σ : Type) (F : Type) where
  fs : σ
  trace : List (Call F)
  deriving DecidableEq

/-- Record one call. -/
def World.log {σ F : Type} (w : World σ F) (c : Call F) : World σ F :=
  { w with trace := w.trace ++ [c] }

/-- The `gboolean` a function returns and the error it left in `*error`. -/
structure GResult where
  ret : Bool
  error : Option GError
  deriving DecidableEq, Repr

section Operations

variable {σ F : Type}

/-! ## `ot_gfile_ensure_directory` -/

/-- Lines 37-63. -/
def ot_gfile_ensure_directory (P : Provider σ F) (dir : F) (with_parents : Bool)
    (w : World σ F) : GResult × World σ F :=
  let call :=
    if with_parents then P.g_file_make_directory_with_parents dir none w.fs
    else P.g_file_make_directory dir none w.fs
  let w1 : World σ F :=
    { fs := call.2,
      trace := w.trace ++
        [if with_parents then Call.make_directory_with_parents dir else Call.make_directory dir] }
  match call.1 with
  | .ok _ => ({ ret := true, error := none }, w1)
  | .error temp_error =>
    if !g_error_matches (some temp_error) G_IO_ERROR G_IO_ERROR_EXISTS then
      ({ ret := false, error := some temp_error }, w1)
    else
      ({ ret := true, error := none }, w1)

/-! ## `ot_gfile_load_contents_utf8` -/

/-- A continuation byte `10xxxxxx`. -/
def is_continuation (b : Nat) : Bool := decide (128 ≤ b ∧ b < 192)

/-- GLib's `UNICODE_VALID`: below 0x110000 and not a surrogate. -/
def unicode_valid (v : Nat) : Bool := decide (v < 1114112 ∧ ¬ (55296 ≤ v ∧ v < 57344))

/-- One step of the validation loop: the number of bytes of the character that
starts the text, or 0 when what starts it is not acceptable. A zero byte ends
the loop; a two-, three- or four-byte sequence needs its continuation bytes,
must not be an overlong form and must denote a valid code point. -/
def utf8_sequence_length : List Nat → Nat
  | [] => 0
  | b0 :: rest =>
    if b0 = 0 then 0
    else if b0 < 128 then 1
    else if 192 ≤ b0 ∧ b0 < 224 then
      match rest with
      | b1 :: _ => if 194 ≤ b0 ∧ is_continuation b1 = true then 2 else 0
      | [] => 0
    else if 224 ≤ b0 ∧ b0 < 240 then
      match rest with
      | b1 :: b2 :: _ =>
        if is_continuation b1 = true ∧ is_continuation b2 = true ∧
            2048 ≤ (b0 - 224) * 4096 + (b1 - 128) * 64 + (b2 - 128) ∧
            unicode_valid ((b0 - 224) * 4096 + (b1 - 128) * 64 + (b2 - 128)) = true
        then 3 else 0
      | _ => 0
    else if 240 ≤ b0 ∧ b0 < 248 then
      match rest with
      | b1 :: b2 :: b3 :: _ =>
        if is_continuation b1 = true ∧ is_continuation b2 = true ∧ is_continuation b3 = true ∧
            65536 ≤ (b0 - 240) * 262144 + (b1 - 128) * 4096 + (b2 - 128) * 64 + (b3 - 128) ∧
            unicode_valid
              ((b0 - 240) * 262144 + (b1 - 128) * 4096 + (b2 - 128) * 64 + (b3 - 128)) = true
        then 4 else 0
      | _ => 0
    else 0

/-- The loop of the validator: character after character until the text is used
up. The first argument bounds the number of characters. -/
def validate_loop : Nat → List Nat → Bool
  | _, [] => true
  | 0, _ :: _ => false
  | fuel + 1, b :: bs =>
    if utf8_sequence_length (b :: bs) = 0 then false
    else validate_loop fuel ((b :: bs).drop (utf8_sequence_length (b :: bs)))

/-- External GLib routine `g_utf8_validate (str, max_len, NULL)` with the length
given, embedded from its documented contract: it returns `TRUE` when all of
`str` is valid UTF-8, and, as the GLib reference says, it "returns FALSE if
max_len is positive and any of the max_len bytes are nul". -/
def g_utf8_validate (str : List Nat) : Bool := validate_loop str.length str

/-- UTF-8 encoding of a code point (Unicode Standard, table 3-6). -/
def utf8_encode (v : Nat) : List Nat :=
  if v < 128 then [v]
  else if v < 2048 then [192 + v / 64, 128 + v % 64]
  else if v < 65536 then [224 + v / 4096, 128 + v / 64 % 64, 128 + v % 64]
  else [240 + v / 262144, 128 + v / 4096 % 64, 128 + v / 64 % 64, 128 + v % 64]

/-- A Unicode scalar value: a code point that is not a surrogate. -/
abbrev is_scalar_value (v : Nat) : Prop := v < 55296 ∨ (57344 ≤ v ∧ v < 1114112)

/-- Well-formed UTF-8, as the Unicode Standard defines it: the text is the
encoding of a sequence of Unicode scalar values. -/
def well_formed_utf8 (b : List Nat) : Prop :=
  ∃ vs : List Nat, (∀ v ∈ vs, is_scalar_value v) ∧ b = vs.flatMap utf8_encode

/-- What `ot_gfile_load_contents_utf8` hands back: the return value, the error, and
the two optional outputs. -/
structure LoadContentsResult where
  ret : Bool
  error : Option GError
  contents_out : Option (List Nat)
  etag_out : Option String
  deriving DecidableEq, Repr

/-- Lines 65-103. `want_contents` and `want_etag` say whether `contents_out` and
`etag_out` were non-`NULL`; the bytes read are a list, its length the `len` of
line 74. -/
def ot_gfile_load_contents_utf8 (P : Provider σ F) (file : F) (want_contents want_etag : Bool)
    (cancellable : Option GCancellable) (w : World σ F) : LoadContentsResult × World σ F :=
  let w1 := w.log (Call.load_contents file)
  match P.g_file_load_contents file cancellable w.fs with
  | .error e => ({ ret := false, error := some e, contents_out := none, etag_out := none }, w1)
  | .ok (ret_contents, ret_etag) =>
    if !g_utf8_validate ret_contents then
      ({ ret := false,
         error := some (g_set_error G_IO_ERROR G_IO_ERROR_INVALID_DATA "Invalid UTF-8"),
         contents_out := none, etag_out := none }, w1)
    else
      ({ ret := true, error := none,
         contents_out := if want_contents then some ret_contents else none,
         etag_out := if want_etag then some ret_etag else none }, w1)

/-! ## Cached path and basename -/

/-- Lines 105-110: a handle of the local VFS. -/
def ot_gfile_new_for_path (P : Provider σ F) (path : String) : F :=
  P.g_vfs_get_file_for_path path

/-- Lines 112-124. The string is computed by `g_file_get_path` on the first call
and kept on the handle; a handle never changes its path, so every call returns
`g_file_get_path file`. -/
def ot_gfile_get_path_cached (P : Provider σ F) (file : F) : String :=
  P.g_file_get_path file

/-- Lines 127-139, as `ot_gfile_get_path_cached`. -/
def ot_gfile_get_basename_cached (P : Provider σ F) (file : F) : String :=
  P.g_file_get_basename file

/-! ## `ot_gfile_create_tmp` -/

/-- What `ot_gfile_create_tmp` hands back: the return value, the error, and the two
optional outputs. -/
structure CreateTmpResult (F : Type) where
  ret : Bool
  error : Option GError
  out_file : Option F
  out_stream : Option GOutputStream

/-- The name template built at lines 160-169. -/
def tmp_name_template (P : Provider σ F) (dir : F) (pfx sfx : Option String) : String :=
  let pfx := match pfx with
    | some p => p
    | none => "tmp-"
  let sfx := match sfx with
    | some s => s
    | none => ".tmp"
  ot_gfile_get_path_cached P dir ++ "/" ++ pfx ++ "XXXXXX" ++ sfx

/-- Lines 141-197. `want_file` and `want_stream` say whether `out_file` and
`out_stream` were non-`NULL`. An object nobody takes is released at `out:`;
releasing the stream closes its descriptor. -/
def ot_gfile_create_tmp (P : Provider σ F) (dir : F) (pfx sfx : Option String) (mode : Nat)
    (want_file want_stream : Bool) (cancellable : Option GCancellable) (w : World σ F) :
    CreateTmpResult F × World σ F :=
  match g_cancellable_set_error_if_cancelled cancellable with
  | some e => ({ ret := false, error := some e, out_file := none, out_stream := none }, w)
  | none =>
    let tmp_name := tmp_name_template P dir pfx sfx
    let call := P.g_mkstemp_full tmp_name (O_WRONLY ||| O_BINARY) mode w.fs
    let w1 : World σ F :=
      { fs := call.2, trace := w.trace ++ [Call.mkstemp_full tmp_name (O_WRONLY ||| O_BINARY) mode] }
    match call.1 with
    | .error errno =>
      ({ ret := false, error := some (P.error_from_errno errno),
         out_file := none, out_stream := none }, w1)
    | .ok (name, tmpfd) =>
      let ret_file := ot_gfile_new_for_path P name
      let ret_stream : GOutputStream := { fd := tmpfd, close_fd := true }
      ({ ret := true, error := none,
         out_file := if want_file then some ret_file else none,
         out_stream := if want_stream then some ret_stream else none },
       if want_stream then w1 else w1.log (Call.close tmpfd))

/-! ## `ot_gfile_merge_dirs` -/

/-- Line 216. -/
def move_flags : Nat :=
  G_FILE_COPY_OVERWRITE ||| G_FILE_COPY_NOFOLLOW_SYMLINKS ||| G_FILE_COPY_ALL_METADATA

/-- Lines 243-259, the body of the loop for one file info the enumerator handed
out. `recurse` is the recursive call of line 251. `none` stands for a recursive
call that has not returned. -/
def merge_child (P : Provider σ F)
    (recurse : F → F → World σ F → Option (GResult × World σ F))
    (destination src : F) (cancellable : Option GCancellable)
    (src_fileinfo : GFileInfo) (w : World σ F) : Option (GResult × World σ F) :=
  let type := src_fileinfo.type
  let name := src_fileinfo.name
  let dest_subfile := P.g_file_get_child destination name
  let src_subfile := P.g_file_get_child src name
  if type = G_FILE_TYPE_DIRECTORY then
    recurse dest_subfile src_subfile w
  else
    let call := P.g_file_move src_subfile dest_subfile move_flags cancellable w.fs
    let w1 : World σ F :=
      { fs := call.2, trace := w.trace ++ [Call.move src_subfile dest_subfile move_flags] }
    match call.1 with
    | .ok _ => some ({ ret := true, error := none }, w1)
    | .error e => some ({ ret := false, error := some e }, w1)

/-- Lines 241-268, the loop over the enumerator and the check of `temp_error`
after it. The two list arguments are the enumerator's `pending` and `final`. -/
def merge_children (P : Provider σ F)
    (recurse : F → F → World σ F → Option (GResult × World σ F))
    (destination src : F) (cancellable : Option GCancellable) :
    List GFileInfo → Option GError → World σ F → Option (GResult × World σ F)
  | [], none, w => some ({ ret := true, error := none }, w.log (Call.next_file src))
  | [], some temp_error, w =>
    some ({ ret := false, error := some temp_error }, w.log (Call.next_file src))
  | src_fileinfo :: rest, final, w =>
    match merge_child P recurse destination src cancellable src_fileinfo
        (w.log (Call.next_file src)) with
    | none => none
    | some (r, w1) =>
      if r.ret then merge_children P recurse destination src cancellable rest final w1
      else some (r, w1)

/-- Lines 199-287. The first argument bounds the depth of the recursion: `none`
is returned when it is used up. -/
def ot_gfile_merge_dirs (P : Provider σ F) :
    Nat → F → F → Option GCancellable → World σ F → Option (GResult × World σ F)
  | 0, _, _, _, _ => none
  | fuel + 1, destination, src, cancellable, w =>
    let dest_path := ot_gfile_get_path_cached P destination
    let src_path := ot_gfile_get_path_cached P src
    let w1 := w.log
      (Call.query_info destination P.fast_queryinfo G_FILE_QUERY_INFO_NOFOLLOW_SYMLINKS)
    match P.g_file_query_info destination P.fast_queryinfo
        G_FILE_QUERY_INFO_NOFOLLOW_SYMLINKS cancellable w.fs with
    | .ok dest_fileinfo =>
      if dest_fileinfo.type ≠ G_FILE_TYPE_DIRECTORY then
        some ({ ret := false,
                error := some (g_set_error G_IO_ERROR G_IO_ERROR_FAILED
                  ("Attempting to replace non-directory " ++ dest_path ++
                    " with directory " ++ src_path)) }, w1)
      else
        let w2 := w1.log
          (Call.enumerate_children src P.fast_queryinfo G_FILE_QUERY_INFO_NOFOLLOW_SYMLINKS)
        match P.g_file_enumerate_children src P.fast_queryinfo
            G_FILE_QUERY_INFO_NOFOLLOW_SYMLINKS cancellable w.fs with
        | .error e => some ({ ret := false, error := some e }, w2)
        | .ok src_enum =>
          merge_children P (fun d s w0 => ot_gfile_merge_dirs P fuel d s cancellable w0)
            destination src cancellable src_enum.pending src_enum.final w2
    | .error temp_error =>
      if g_error_matches (some temp_error) G_IO_ERROR G_IO_ERROR_NOT_FOUND then
        let call := P.g_file_move src destination move_flags cancellable w.fs
        let w2 : World σ F :=
          { fs := call.2, trace := w1.trace ++ [Call.move src destination move_flags] }
        match call.1 with
        | .ok _ => some ({ ret := true, error := none }, w2)
        | .error e => some ({ ret := false, error := some e }, w2)
      else
        some ({ ret := false, error := none }, w1)

/-- The world the loop of `ot_gfile_merge_dirs` is in when it has handled the
children `cs` one after the other and each of them succeeded; `none` when one
of them failed or did not return. -/
def children_done (P : Provider σ F)
    (recurse : F → F → World σ F → Option (GResult × World σ F))
    (destination src : F) (cancellable : Option GCancellable) :
    List GFileInfo → World σ F → Option (World σ F)
  | [], w => some w
  | c :: cs, w =>
    match merge_child P recurse destination src cancellable c (w.log (Call.next_file src)) with
    | none => none
    | some (r, w1) =>
      if r.ret then children_done P recurse destination src cancellable cs w1 else none

end Operations

/-! ## An in-memory provider

A concrete provider over a finite table of paths, used wherever a claim speaks
about the contents of the filesystem. It follows the spec's description of the
Filesystem/VFS Provider and the documented behaviour of the local GIO
backend: `lstat`-style queries, `rename(2)`-style moves that refuse to put
anything over an existing directory, `mkdir(2)`-style directory creation. -/

/-- What is stored at a path. A directory's children are the entries one
component below it. -/
inductive Node
  | regular (contents : List Nat) (etag : String)
  | symlink (target : String)
  | special
  | directory
  deriving DecidableEq, Repr

/-- The `standard::type` an entry reports when it is not followed. -/
def Node.type : Node → GFileType
  | .regular _ _ => G_FILE_TYPE_REGULAR
  | .symlink _ => G_FILE_TYPE_SYMBOLIC_LINK
  | .special => G_FILE_TYPE_SPECIAL
  | .directory => G_FILE_TYPE_DIRECTORY

/-- A path, as its components below the root. -/
abbrev Path := List String

/-- The entry stored at `p`: the first row of the table with that path. -/
def lookup : List (Path × Node) → Path → Option Node
  | [], _ => none
  | e :: es, p => if e.1 = p then some e.2 else lookup es p

/-- In-memory filesystem state: the table, the six-character strings the
unique-name generator will draw next, and the next free descriptor. -/
structure MemFS where
  entries : List (Path × Node)
  tmp_supply : List (List Char)
  next_fd : Nat
  deriving DecidableEq, Repr

/-- The table is a tree: the root is a directory and whatever exists lies in a
directory. -/
def wf_table (es : List (Path × Node)) : Bool :=
  decide (lookup es [] = some Node.directory) &&
    es.all (fun e => decide (e.1 = []) || decide (lookup es e.1.dropLast = some Node.directory))

/-- Path of a handle as a string. -/
def mem_get_path (p : Path) : String :=
  if p = [] then "/" else p.foldl (fun acc c => acc ++ "/" ++ c) ""

/-- Last component of a handle. -/
def mem_get_basename (p : Path) : String :=
  match p.getLast? with
  | some c => c
  | none => "/"

/-- Components of a path string: split at `/`, empty components dropped. -/
def split_path : List Char → List Char → Path
  | [], acc => if acc = [] then [] else [String.mk acc]
  | c :: cs, acc =>
    if c = '/' then
      (if acc = [] then split_path cs [] else String.mk acc :: split_path cs [])
    else split_path cs (acc ++ [c])

/-- The error of a system call on a path that does not exist: `ENOTDIR` when it
runs through something that is not a directory, `ENOENT` otherwise. -/
def missing_error (es : List (Path × Node)) (p : Path) : GError :=
  if p.inits.any (fun q =>
      match lookup es q with
      | some n => decide (n ≠ Node.directory)
      | none => false)
  then g_set_error G_IO_ERROR G_IO_ERROR_NOT_DIRECTORY "Not a directory"
  else g_set_error G_IO_ERROR G_IO_ERROR_NOT_FOUND "No such file or directory"

/-- In-memory `g_file_query_info`; symbolic links are reported, never followed. -/
def mem_query_info (p : Path) (_attributes : String) (_flags : Nat)
    (cancellable : Option GCancellable) (fs : MemFS) : Except GError GFileInfo :=
  match g_cancellable_set_error_if_cancelled cancellable with
  | some e => .error e
  | none =>
    match lookup fs.entries p with
    | some n => .ok { type := n.type, name := mem_get_basename p }
    | none => .error (missing_error fs.entries p)

/-- The names directly below `d`, each once, in table order. -/
def child_names (es : List (Path × Node)) (d : Path) : List String :=
  (es.filterMap (fun e => if e.1.dropLast = d then e.1.getLast? else none)).dedup

/-- In-memory `g_file_enumerate_children`: the children of `d` as they are when
the directory is opened. -/
def mem_enumerate_children (d : Path) (_attributes : String) (_flags : Nat)
    (cancellable : Option GCancellable) (fs : MemFS) : Except GError GFileEnumerator :=
  match g_cancellable_set_error_if_cancelled cancellable with
  | some e => .error e
  | none =>
    match lookup fs.entries d with
    | some Node.directory =>
      .ok { pending := (child_names fs.entries d).map (fun n =>
              { type := match lookup fs.entries (d ++ [n]) with
                  | some node => node.type
                  | none => G_FILE_TYPE_UNKNOWN,
                name := n }),
            final := none }
    | some _ => .error (g_set_error G_IO_ERROR G_IO_ERROR_NOT_DIRECTORY "Not a directory")
    | none => .error (missing_error fs.entries d)

/-- The table after the entry at `s`, with everything below it, has been put at
`d` in place of whatever was there. -/
def move_entries (es : List (Path × Node)) (s d : Path) : List (Path × Node) :=
  es.filter (fun e => decide (¬ s <+: e.1) && decide (¬ d <+: e.1)) ++
    (es.filter (fun e => decide (s <+: e.1))).map (fun e => (d ++ e.1.drop s.length, e.2))

/-- In-memory `g_file_move`, after the local backend: the source must exist; an
existing target is an error without the overwrite flag and, when it is a
directory, also with it; the target's parent must be a directory; a directory
cannot be moved below itself. On success the source entry, with all below it,
replaces the target entry and is gone from its old place. -/
def mem_move (s d : Path) (flags : Nat) (cancellable : Option GCancellable) (fs : MemFS) :
    Except GError Unit × MemFS :=
  match g_cancellable_set_error_if_cancelled cancellable with
  | some e => (.error e, fs)
  | none =>
    match lookup fs.entries s with
    | none => (.error (missing_error fs.entries s), fs)
    | some ns =>
      let blocked : Option GError :=
        match lookup fs.entries d with
        | none => none
        | some nd =>
          if flags &&& G_FILE_COPY_OVERWRITE = 0 then
            some (g_set_error G_IO_ERROR G_IO_ERROR_EXISTS "Target file exists")
          else if nd = Node.directory then
            (if ns = Node.directory then
              some (g_set_error G_IO_ERROR G_IO_ERROR_WOULD_MERGE
                "Can't move directory over directory")
            else some (g_set_error G_IO_ERROR G_IO_ERROR_IS_DIRECTORY "Can't copy over directory"))
          else none
      match blocked with
      | some e => (.error e, fs)
      | none =>
        if lookup fs.entries d.dropLast ≠ some Node.directory ∨ d = [] then
          (.error (missing_error fs.entries d), fs)
        else if s <+: d ∧ s ≠ d then
          (.error (g_set_error G_IO_ERROR G_IO_ERROR_INVALID_FILENAME "Invalid filename"), fs)
        else
          (.ok (), { fs with entries := move_entries fs.entries s d })

/-- In-memory `g_file_make_directory`. -/
def mem_make_directory (p : Path) (cancellable : Option GCancellable) (fs : MemFS) :
    Except GError Unit × MemFS :=
  match g_cancellable_set_error_if_cancelled cancellable with
  | some e => (.error e, fs)
  | none =>
    match lookup fs.entries p with
    | some _ => (.error (g_set_error G_IO_ERROR G_IO_ERROR_EXISTS "File exists"), fs)
    | none =>
      match lookup fs.entries p.dropLast with
      | some Node.directory => (.ok (), { fs with entries := (p, Node.directory) :: fs.entries })
      | some _ => (.error (g_set_error G_IO_ERROR G_IO_ERROR_NOT_DIRECTORY "Not a directory"), fs)
      | none => (.error (missing_error fs.entries p), fs)

/-- Create, from the root down, every missing directory on the way to
`done ++ todo`; fails where the way runs through a non-directory. -/
def make_chain : List (Path × Node) → Path → List String → Except GError (List (Path × Node))
  | es, _, [] => .ok es
  | es, done, c :: todo =>
    match lookup es (done ++ [c]) with
    | none => make_chain ((done ++ [c], Node.directory) :: es) (done ++ [c]) todo
    | some Node.directory => make_chain es (done ++ [c]) todo
    | some _ => .error (g_set_error G_IO_ERROR G_IO_ERROR_NOT_DIRECTORY "Not a directory")

/-- In-memory `g_file_make_directory_with_parents`: like `mkdir -p`, except that
it fails with `G_IO_ERROR_EXISTS` when the path itself exists already. -/
def mem_make_directory_with_parents (p : Path) (cancellable : Option GCancellable)
    (fs : MemFS) : Except GError Unit × MemFS :=
  match g_cancellable_set_error_if_cancelled cancellable with
  | some e => (.error e, fs)
  | none =>
    match lookup fs.entries p with
    | some _ => (.error (g_set_error G_IO_ERROR G_IO_ERROR_EXISTS "File exists"), fs)
    | none =>
      match make_chain fs.entries [] p with
      | .ok es => (.ok (), { fs with entries := es })
      | .error e => (.error e, fs)

/-- In-memory `g_file_load_contents`: the bytes and the entity tag of a regular
file. Symbolic links are not resolved by this model. -/
def mem_load_contents (p : Path) (cancellable : Option GCancellable) (fs : MemFS) :
    Except GError (List Nat × String) :=
  match g_cancellable_set_error_if_cancelled cancellable with
  | some e => .error e
  | none =>
    match lookup fs.entries p with
    | some (Node.regular contents etag) => .ok (contents, etag)
    | some Node.directory =>
      .error (g_set_error G_IO_ERROR G_IO_ERROR_IS_DIRECTORY "Is a directory")
    | some _ => .error (g_set_error G_IO_ERROR G_IO_ERROR_NOT_SUPPORTED "Not a regular file")
    | none => .error (missing_error fs.entries p)

/-- The six placeholder characters of a name template. -/
def placeholder : List Char := ['X', 'X', 'X', 'X', 'X', 'X']

/-- Put `r` in place of the first `XXXXXX` of a text. -/
def fill_first (r : List Char) : List Char → Option (List Char)
  | [] => none
  | c :: cs =>
    if placeholder <+: c :: cs then some (r ++ (c :: cs).drop 6)
    else (fill_first r cs).map (fun t => c :: t)

/-- Put `r` in place of the last `XXXXXX` of a template, which is the one
`g_mkstemp_full` consumes. -/
def fill_last (tmpl r : List Char) : Option (List Char) :=
  (fill_first r.reverse tmpl.reverse).map List.reverse

/-- A name `g_mkstemp_full` may produce from a template: the last `XXXXXX` is
replaced by six letters or digits. -/
def fills_template (tmpl name : String) : Prop :=
  ∃ r : List Char, r.length = 6 ∧ (∀ c ∈ r, c.isAlphanum = true) ∧
    fill_last tmpl.data r = some name.data

/-- The first of the candidate names that is free, with the candidates left. -/
def first_free (es : List (Path × Node)) (tmpl : List Char) :
    List (List Char) → Option (List Char × List (List Char))
  | [] => none
  | r :: rs =>
    match fill_last tmpl r with
    | none => none
    | some name =>
      if lookup es (split_path name []) = none then some (name, rs) else first_free es tmpl rs

/-- In-memory `g_mkstemp_full`: `EINVAL` (22) without a placeholder, `ENOENT` (2)
when the directory is missing, `EEXIST` (17) when a hundred candidates are all
taken; otherwise an empty regular file under the first free name and a fresh
descriptor. -/
def mem_mkstemp_full (tmpl : String) (_flags : Nat) (_mode : Nat) (fs : MemFS) :
    Except Nat (String × Nat) × MemFS :=
  match fill_last tmpl.data placeholder with
  | none => (.error 22, fs)
  | some _ =>
    if lookup fs.entries (split_path tmpl.data []).dropLast ≠ some Node.directory then
      (.error 2, fs)
    else
      match first_free fs.entries tmpl.data (fs.tmp_supply.take 100) with
      | none => (.error 17, { fs with tmp_supply := fs.tmp_supply.drop 100 })
      | some (name, rest) =>
        (.ok (String.mk name, fs.next_fd),
         { entries := (split_path name [], Node.regular [] "") :: fs.entries,
           tmp_supply := rest ++ fs.tmp_supply.drop 100,
           next_fd := fs.next_fd + 1 })

/-- The `G_IO_ERROR` an `errno` value maps to in the in-memory provider. -/
def mem_error_from_errno (errno : Nat) : GError :=
  if errno = 2 then g_set_error G_IO_ERROR G_IO_ERROR_NOT_FOUND "No such file or directory"
  else if errno = 17 then g_set_error G_IO_ERROR G_IO_ERROR_EXISTS "File exists"
  else if errno = 20 then g_set_error G_IO_ERROR G_IO_ERROR_NOT_DIRECTORY "Not a directory"
  else if errno = 22 then g_set_error G_IO_ERROR G_IO_ERROR_INVALID_ARGUMENT "Invalid argument"
  else g_set_error G_IO_ERROR G_IO_ERROR_FAILED "Input/output error"

/-- The in-memory provider. -/
def mem : Provider MemFS Path where
  g_file_get_path := mem_get_path
  g_file_get_basename := mem_get_basename
  g_file_get_child := fun p name => p ++ [name]
  g_vfs_get_file_for_path := fun s => split_path s.data []
  g_file_make_directory := mem_make_directory
  g_file_make_directory_with_parents := mem_make_directory_with_parents
  g_file_load_contents := mem_load_contents
  g_file_query_info := mem_query_info
  g_file_enumerate_children := mem_enumerate_children
  g_file_move := mem_move
  g_mkstemp_full := mem_mkstemp_full
  fast_queryinfo := "standard::name,standard::type"
  error_from_errno := mem_error_from_errno

/-- Bytes of an ASCII text. -/
def bytes (s : String) : List Nat := s.data.map Char.toNat

/-- A filesystem state with the given table and nothing else of note. -/
def mem_fs (es : List (Path × Node)) : MemFS :=
  { entries := es, tmp_supply := [], next_fd := 3 }

/-- A world over the in-memory provider with an empty trace. -/
def mem_world (es : List (Path × Node)) : World MemFS Path :=
  { fs := mem_fs es, trace := [] }

/-! ## Predicates on tables -/

/-- The table is a tree, as a property of `lookup`: the root is a directory and
the parent of whatever exists is a directory. -/
def is_tree (es : List (Path × Node)) : Prop :=
  lookup es [] = some Node.directory ∧
    ∀ p n, lookup es (p ++ [n]) ≠ none → lookup es p = some Node.directory

/-- What a merge of the tree at `s` into the tree at `d` has done between the
tables `es` and `es1`: every non-directory the source held is at the same
relative path in the destination; the destination is unchanged at every relative
path the source did not occupy; and what is left in the source are directories
that were there before. -/
def Moved (d s : Path) (es es1 : List (Path × Node)) : Prop :=
  (∀ q x, lookup es (s ++ q) = some x → x ≠ Node.directory → lookup es1 (d ++ q) = some x) ∧
  (∀ q, lookup es (s ++ q) = none → lookup es1 (d ++ q) = lookup es (d ++ q)) ∧
  (∀ q x, lookup es1 (s ++ q) = some x →
    x = Node.directory ∧ lookup es (s ++ q) = some Node.directory)

/-- The effect of a merge of `s` into `d`: the table is still a tree, nothing
outside the two trees changed, and inside them `Moved` holds. -/
def Merged (d s : Path) (es es1 : List (Path × Node)) : Prop :=
  is_tree es1 ∧
  (∀ q, ¬ d <+: q → ¬ s <+: q → lookup es1 q = lookup es q) ∧
  Moved d s es es1

/-- The effect of the loop over the children `names` of `s`: the table is still
a tree, nothing outside the children's subtrees on either side changed, and
each child has been merged into its counterpart. -/
def ChildrenMerged (d s : Path) (names : List String) (es es1 : List (Path × Node)) : Prop :=
  is_tree es1 ∧
  (∀ q, (∀ n ∈ names, ¬ (d ++ [n]) <+: q ∧ ¬ (s ++ [n]) <+: q) → lookup es1 q = lookup es q) ∧
  (∀ n ∈ names, Moved (d ++ [n]) (s ++ [n]) es es1)

/-- The length of the longest path of a table. -/
def table_depth (es : List (Path × Node)) : Nat :=
  (es.map (fun e => e.1.length)).foldr max 0

/-! ## Example tables -/

/-- A table where `/A` does not exist and `/B` holds `f1` and `subdir/f2`. -/
def table_fresh : List (Path × Node) :=
  [([], Node.directory), (["B"], Node.directory),
   (["B", "f1"], Node.regular (bytes "one") "t1"),
   (["B", "subdir"], Node.directory),
   (["B", "subdir", "f2"], Node.regular (bytes "two") "t2")]

/-- A table where `/A` holds `f1: "old"` and `/B` holds `f1: "new"` and `f2: "x"`. -/
def table_overwrite : List (Path × Node) :=
  [([], Node.directory), (["A"], Node.directory), (["B"], Node.directory),
   (["A", "f1"], Node.regular (bytes "old") "t0"),
   (["B", "f1"], Node.regular (bytes "new") "t1"),
   (["B", "f2"], Node.regular (bytes "x") "t2")]

/-- A table where `/A` is a regular file and `/B` a directory with one file. -/
def table_mismatch : List (Path × Node) :=
  [([], Node.directory), (["A"], Node.regular (bytes "a") "t0"), (["B"], Node.directory),
   (["B", "f1"], Node.regular (bytes "new") "t1")]

/-- A table with three files: `/hello` holds the text "hé", `/nul` the three
bytes `61 00 62`, and `/bad` the single byte `ff`. -/
def table_texts : List (Path × Node) :=
  [([], Node.directory),
   (["hello"], Node.regular [104, 195, 169] "1700000000:0"),
   (["nul"], Node.regular [97, 0, 98] "1700000001:0"),
   (["bad"], Node.regular [255] "1700000002:0")]

/-- A table where `/B` holds `f1`, a directory `d` and `f2`, in that order, and
`/A` holds a regular file named `d`. -/
def table_partial : List (Path × Node) :=
  [([], Node.directory), (["A"], Node.directory), (["B"], Node.directory),
   (["A", "d"], Node.regular (bytes "file") "t0"),
   (["B", "f1"], Node.regular (bytes "one") "t1"),
   (["B", "d"], Node.directory),
   (["B", "d", "g"], Node.regular (bytes "deep") "t2"),
   (["B", "f2"], Node.regular (bytes "two") "t3")]

/-- A table where `/B` holds a symbolic link to the directory `/T`. -/
def table_links : List (Path × Node) :=
  [([], Node.directory), (["A"], Node.directory), (["B"], Node.directory),
   (["T"], Node.directory), (["T", "x"], Node.regular (bytes "x") "t0"),
   (["B", "ln"], Node.symlink "/T")]

/-- A state with a directory `/tmp` and one name for the generator to draw. -/
def fs_tmp : MemFS :=
  { entries := [([], Node.directory), (["tmp"], Node.directory)],
    tmp_supply := [['a', 'b', 'c', '1', '2', '3']],
    next_fd := 3 }

end OtGio

/-! # Theorems -/

namespace OtGio

section Utf8

theorem sequence_length_encode (v : Nat) (hv : is_scalar_value v) (h0 : v ≠ 0)
    (rest : List Nat) :
    utf8_sequence_length (utf8_encode v ++ rest) = (utf8_encode v).length ∧
      (utf8_encode v).length ≠ 0 := by
  unfold is_scalar_value at hv
  unfold utf8_encode
  by_cases h1 : v < 128
  · simp [h1, utf8_sequence_length, h0]
  · by_cases h2 : v < 2048
    · have a1 : ¬ (192 + v / 64 = 0) := by omega
      have a2 : ¬ (192 + v / 64 < 128) := by omega
      have a3 : 192 ≤ 192 + v / 64 ∧ 192 + v / 64 < 224 := by omega
      have a4 : 194 ≤ 192 + v / 64 := by omega
      have a5 : 128 ≤ 128 + v % 64 ∧ 128 + v % 64 < 192 := by omega
      simp [h1, h2, utf8_sequence_length, a1, a2, a3, a4, is_continuation, a5]
    · by_cases h3 : v < 65536
      · have a1 : ¬ (224 + v / 4096 = 0) := by omega
        have a2 : ¬ (224 + v / 4096 < 128) := by omega
        have a3 : ¬ (192 ≤ 224 + v / 4096 ∧ 224 + v / 4096 < 224) := by omega
        have a4 : 224 ≤ 224 + v / 4096 ∧ 224 + v / 4096 < 240 := by omega
        have a5 : 128 ≤ 128 + v / 64 % 64 ∧ 128 + v / 64 % 64 < 192 := by omega
        have a6 : 128 ≤ 128 + v % 64 ∧ 128 + v % 64 < 192 := by omega
        have a7 : (224 + v / 4096 - 224) * 4096 + (128 + v / 64 % 64 - 128) * 64
            + (128 + v % 64 - 128) = v := by omega
        have a8 : 2048 ≤ v := by omega
        have a9 : v < 1114112 ∧ ¬ (55296 ≤ v ∧ v < 57344) := by omega
        simp only [h1, h2, h3, if_false, if_true, List.cons_append, List.nil_append,
          utf8_sequence_length, a1, a2, a3, a4, and_self, a7, is_continuation, a5, a6, a8,
          unicode_valid, a9, decide_True, not_false_eq_true, List.length_cons, List.length_nil]
        simp
      · have a1 : ¬ (240 + v / 262144 = 0) := by omega
        have a2 : ¬ (240 + v / 262144 < 128) := by omega
        have a3 : ¬ (192 ≤ 240 + v / 262144 ∧ 240 + v / 262144 < 224) := by omega
        have a4 : ¬ (224 ≤ 240 + v / 262144 ∧ 240 + v / 262144 < 240) := by omega
        have a4' : 240 ≤ 240 + v / 262144 ∧ 240 + v / 262144 < 248 := by omega
        have a5 : 128 ≤ 128 + v / 4096 % 64 ∧ 128 + v / 4096 % 64 < 192 := by omega
        have a5' : 128 ≤ 128 + v / 64 % 64 ∧ 128 + v / 64 % 64 < 192 := by omega
        have a6 : 128 ≤ 128 + v % 64 ∧ 128 + v % 64 < 192 := by omega
        have a7 : (240 + v / 262144 - 240) * 262144 + (128 + v / 4096 % 64 - 128) * 4096
            + (128 + v / 64 % 64 - 128) * 64 + (128 + v % 64 - 128) = v := by omega
        have a8 : 65536 ≤ v := by omega
        have a9 : v < 1114112 ∧ ¬ (55296 ≤ v ∧ v < 57344) := by omega
        simp only [h1, h2, h3, if_false, if_true, List.cons_append, List.nil_append,
          utf8_sequence_length, a1, a2, a3, a4, a4', and_self, a7, is_continuation, a5, a5', a6,
          a8, unicode_valid, a9, decide_True, not_false_eq_true, List.length_cons,
          List.length_nil]
        simp

theorem encode_two (b0 b1 : Nat) (h0 : 194 ≤ b0 ∧ b0 < 224) (h1 : 128 ≤ b1 ∧ b1 < 192) :
    utf8_encode ((b0 - 192) * 64 + (b1 - 128)) = [b0, b1] := by
  have e1 : ¬ ((b0 - 192) * 64 + (b1 - 128) < 128) := by omega
  have e2 : (b0 - 192) * 64 + (b1 - 128) < 2048 := by omega
  simp only [utf8_encode, e1, e2, if_false, if_true, List.cons.injEq, and_true]
  omega

theorem encode_three (b0 b1 b2 : Nat) (h0 : 224 ≤ b0 ∧ b0 < 240) (h1 : 128 ≤ b1 ∧ b1 < 192)
    (h2 : 128 ≤ b2 ∧ b2 < 192)
    (hmin : 2048 ≤ (b0 - 224) * 4096 + (b1 - 128) * 64 + (b2 - 128)) :
    utf8_encode ((b0 - 224) * 4096 + (b1 - 128) * 64 + (b2 - 128)) = [b0, b1, b2] := by
  have e1 : ¬ ((b0 - 224) * 4096 + (b1 - 128) * 64 + (b2 - 128) < 128) := by omega
  have e2 : ¬ ((b0 - 224) * 4096 + (b1 - 128) * 64 + (b2 - 128) < 2048) := by omega
  have e3 : (b0 - 224) * 4096 + (b1 - 128) * 64 + (b2 - 128) < 65536 := by omega
  simp only [utf8_encode, e1, e2, e3, if_false, if_true, List.cons.injEq, and_true]
  omega

theorem encode_four (b0 b1 b2 b3 : Nat) (h0 : 240 ≤ b0 ∧ b0 < 248) (h1 : 128 ≤ b1 ∧ b1 < 192)
    (h2 : 128 ≤ b2 ∧ b2 < 192) (h3 : 128 ≤ b3 ∧ b3 < 192)
    (hmin : 65536 ≤ (b0 - 240) * 262144 + (b1 - 128) * 4096 + (b2 - 128) * 64 + (b3 - 128)) :
    utf8_encode ((b0 - 240) * 262144 + (b1 - 128) * 4096 + (b2 - 128) * 64 + (b3 - 128))
      = [b0, b1, b2, b3] := by
  have e1 : ¬ ((b0 - 240) * 262144 + (b1 - 128) * 4096 + (b2 - 128) * 64 + (b3 - 128) < 128) := by
    omega
  have e2 : ¬ ((b0 - 240) * 262144 + (b1 - 128) * 4096 + (b2 - 128) * 64 + (b3 - 128) < 2048) := by
    omega
  have e3 : ¬ ((b0 - 240) * 262144 + (b1 - 128) * 4096 + (b2 - 128) * 64 + (b3 - 128)
      < 65536) := by omega
  simp only [utf8_encode, e1, e2, e3, if_false, List.cons.injEq, and_true]
  omega

theorem sequence_length_sound (bs : List Nat) (h : utf8_sequence_length bs ≠ 0) :
    ∃ v, is_scalar_value v ∧ v ≠ 0 ∧
      bs = utf8_encode v ++ bs.drop (utf8_sequence_length bs) := by
  cases bs with
  | nil => simp [utf8_sequence_length] at h
  | cons b0 rest =>
    unfold utf8_sequence_length at h ⊢
    by_cases c0 : b0 = 0
    · simp [c0] at h
    · simp only [c0, if_false] at h ⊢
      by_cases c1 : b0 < 128
      · simp only [c1, if_true]
        refine ⟨b0, by omega, c0, ?_⟩
        simp [utf8_encode, c1]
      · simp only [c1, if_false] at h ⊢
        by_cases c2 : 192 ≤ b0 ∧ b0 < 224
        · simp only [c2, and_self, if_true] at h ⊢
          cases rest with
          | nil => simp at h
          | cons b1 r1 =>
            simp only at h ⊢
            by_cases c : 194 ≤ b0 ∧ is_continuation b1 = true
            · simp only [c, and_self, if_true]
              have hb1 : 128 ≤ b1 ∧ b1 < 192 := by simpa [is_continuation] using c.2
              refine ⟨(b0 - 192) * 64 + (b1 - 128), by omega, by omega, ?_⟩
              rw [encode_two b0 b1 ⟨c.1, c2.2⟩ hb1]
              simp
            · simp [c] at h
        · simp only [c2, if_false] at h ⊢
          by_cases c3 : 224 ≤ b0 ∧ b0 < 240
          · simp only [c3, and_self, if_true] at h ⊢
            match rest, h with
            | b1 :: b2 :: r2, h =>
              simp only at h ⊢
              split at h
              · rename_i c
                simp only [c, and_self, if_true]
                have hb1 : 128 ≤ b1 ∧ b1 < 192 := by simpa [is_continuation] using c.1
                have hb2 : 128 ≤ b2 ∧ b2 < 192 := by simpa [is_continuation] using c.2.1
                have hval := c.2.2.2
                simp only [unicode_valid, decide_eq_true_eq] at hval
                refine ⟨(b0 - 224) * 4096 + (b1 - 128) * 64 + (b2 - 128), by omega, by omega, ?_⟩
                rw [encode_three b0 b1 b2 c3 hb1 hb2 c.2.2.1]
                simp
              · exact absurd rfl h
            | [], h => simp at h
            | [_], h => simp at h
          · simp only [c3, if_false] at h ⊢
            by_cases c4 : 240 ≤ b0 ∧ b0 < 248
            · simp only [c4, and_self, if_true] at h ⊢
              match rest, h with
              | b1 :: b2 :: b3 :: r3, h =>
                simp only at h ⊢
                split at h
                · rename_i c
                  simp only [c, and_self, if_true]
                  have hb1 : 128 ≤ b1 ∧ b1 < 192 := by simpa [is_continuation] using c.1
                  have hb2 : 128 ≤ b2 ∧ b2 < 192 := by simpa [is_continuation] using c.2.1
                  have hb3 : 128 ≤ b3 ∧ b3 < 192 := by simpa [is_continuation] using c.2.2.1
                  have hval := c.2.2.2.2
                  simp only [unicode_valid, decide_eq_true_eq] at hval
                  refine ⟨(b0 - 240) * 262144 + (b1 - 128) * 4096 + (b2 - 128) * 64 + (b3 - 128),
                    by omega, by omega, ?_⟩
                  rw [encode_four b0 b1 b2 b3 c4 hb1 hb2 hb3 c.2.2.2.1]
                  simp
                · exact absurd rfl h
              | [], h => simp at h
              | [_], h => simp at h
              | [_, _], h => simp at h
            · simp [c4] at h

theorem validate_loop_fuel (f1 : Nat) :
    ∀ (f2 : Nat) (bs : List Nat), bs.length ≤ f1 → bs.length ≤ f2 →
      validate_loop f1 bs = validate_loop f2 bs := by
  induction f1 with
  | zero =>
    intro f2 bs h1 _
    have : bs = [] := List.length_eq_zero.mp (Nat.le_zero.mp h1)
    subst this
    cases f2 <;> rfl
  | succ f1 ih =>
    intro f2 bs h1 h2
    cases bs with
    | nil => cases f2 <;> rfl
    | cons b t =>
      cases f2 with
      | zero => simp at h2
      | succ f2 =>
        simp only [validate_loop]
        by_cases hn : utf8_sequence_length (b :: t) = 0
        · simp [hn]
        · simp only [hn, if_false]
          have hlen : (List.drop (utf8_sequence_length (b :: t)) (b :: t)).length ≤ t.length := by
            simp only [List.length_drop, List.length_cons]
            omega
          simp only [List.length_cons] at h1 h2
          exact ih f2 _ (by omega) (by omega)

theorem validate_step (b : Nat) (bs : List Nat) :
    g_utf8_validate (b :: bs)
      = if utf8_sequence_length (b :: bs) = 0 then false
        else g_utf8_validate ((b :: bs).drop (utf8_sequence_length (b :: bs))) := by
  unfold g_utf8_validate
  simp only [List.length_cons, validate_loop]
  by_cases hn : utf8_sequence_length (b :: bs) = 0
  · simp [hn]
  · simp only [hn, if_false]
    apply validate_loop_fuel
    · simp only [List.length_drop, List.length_cons]
      omega
    · exact Nat.le_refl _

theorem zero_mem_encode (v : Nat) (h : 0 ∈ utf8_encode v) : v = 0 := by
  unfold utf8_encode at h
  split at h
  · simp only [List.mem_singleton] at h
    exact h.symm
  · split at h
    · simp only [List.mem_cons, List.mem_singleton, List.not_mem_nil, or_false] at h
      omega
    · split at h
      · simp only [List.mem_cons, List.mem_singleton, List.not_mem_nil, or_false] at h
        omega
      · simp only [List.mem_cons, List.mem_singleton, List.not_mem_nil, or_false] at h
        omega

theorem validate_encode (v : Nat) (hv : is_scalar_value v) (h0 : v ≠ 0) (rest : List Nat) :
    g_utf8_validate (utf8_encode v ++ rest) = g_utf8_validate rest := by
  obtain ⟨hlen, hpos⟩ := sequence_length_encode v hv h0 rest
  cases henc : utf8_encode v with
  | nil => simp [henc] at hpos
  | cons b t =>
    rw [henc] at hlen
    rw [List.cons_append, validate_step, ← List.cons_append, hlen,
      if_neg (by simp), List.drop_left]

theorem g_utf8_validate_sound (n : Nat) :
    ∀ b : List Nat, b.length ≤ n → g_utf8_validate b = true → well_formed_utf8 b ∧ 0 ∉ b := by
  induction n with
  | zero =>
    intro b hb _
    have : b = [] := List.length_eq_zero.mp (Nat.le_zero.mp hb)
    subst this
    exact ⟨⟨[], by simp, rfl⟩, by simp⟩
  | succ n ih =>
    intro b hb hval
    cases b with
    | nil => exact ⟨⟨[], by simp, rfl⟩, by simp⟩
    | cons b0 t =>
      rw [validate_step] at hval
      by_cases hn : utf8_sequence_length (b0 :: t) = 0
      · simp [hn] at hval
      · simp only [hn, if_false] at hval
        obtain ⟨v, hv, hv0, hsplit⟩ := sequence_length_sound (b0 :: t) hn
        have hlen : (List.drop (utf8_sequence_length (b0 :: t)) (b0 :: t)).length ≤ n := by
          simp only [List.length_drop, List.length_cons] at hb ⊢
          omega
        obtain ⟨⟨vs, hvs, hrest⟩, hz⟩ := ih _ hlen hval
        refine ⟨⟨v :: vs, ?_, ?_⟩, ?_⟩
        · intro x hx
          rcases List.mem_cons.mp hx with rfl | hx
          · exact hv
          · exact hvs x hx
        · rw [List.flatMap_cons, ← hrest]
          exact hsplit
        · rw [hsplit]
          intro hmem
          rcases List.mem_append.mp hmem with h1 | h1
          · exact hv0 (zero_mem_encode v h1)
          · exact hz h1

theorem g_utf8_validate_iff (b : List Nat) :
    g_utf8_validate b = true ↔ well_formed_utf8 b ∧ 0 ∉ b := by
  constructor
  · exact g_utf8_validate_sound b.length b (Nat.le_refl _)
  · rintro ⟨⟨vs, hvs, rfl⟩, hz⟩
    induction vs with
    | nil => rfl
    | cons v vs ih =>
      rw [List.flatMap_cons] at hz ⊢
      have hv0 : v ≠ 0 := by
        rintro rfl
        exact hz (List.mem_append_left _ (by simp [utf8_encode]))
      rw [validate_encode v (hvs v (List.mem_cons_self _ _)) hv0]
      exact ih (fun x hx => hvs x (List.mem_cons_of_mem _ hx))
        (fun h => hz (List.mem_append_right _ h))

end Utf8

section Tables

theorem lookup_filter (g : Path → Bool) (es : List (Path × Node)) (q : Path) :
    lookup (es.filter (fun e => g e.1)) q = if g q then lookup es q else none := by
  induction es with
  | nil => simp [lookup]
  | cons e es ih =>
    by_cases hg : g e.1 = true
    · rw [List.filter_cons_of_pos (by simpa using hg)]
      simp only [lookup, ih]
      by_cases he : e.1 = q
      · subst he; simp [hg]
      · simp [he]
    · rw [List.filter_cons_of_neg (by simpa using hg)]
      simp only [lookup, ih]
      by_cases he : e.1 = q
      · subst he; simp [hg]
      · simp [he]

theorem lookup_append (a b : List (Path × Node)) (q : Path) :
    lookup (a ++ b) q = match lookup a q with
      | some n => some n
      | none => lookup b q := by
  induction a with
  | nil => simp [lookup]
  | cons e es ih =>
    simp only [List.cons_append, lookup]
    by_cases he : e.1 = q
    · simp [he]
    · simp [he, ih]

theorem lookup_reroot (s d : Path) (es : List (Path × Node)) (q : Path)
    (hs : ∀ e ∈ es, s <+: e.1) :
    lookup (es.map (fun e => (d ++ e.1.drop s.length, e.2))) q
      = if d <+: q then lookup es (s ++ q.drop d.length) else none := by
  induction es with
  | nil => simp [lookup]
  | cons e es ih =>
    have hse : s <+: e.1 := hs e (List.mem_cons_self _ _)
    have ih' := ih (fun x hx => hs x (List.mem_cons_of_mem _ hx))
    obtain ⟨t, ht⟩ := hse
    simp only [List.map_cons, lookup, ih']
    by_cases hd : d <+: q
    · obtain ⟨u, hu⟩ := hd
      subst hu
      rw [← ht]
      by_cases htu : t = u
      · simp [htu]
      · have h1 : ¬ s ++ t = s ++ u := fun h => htu (List.append_cancel_left h)
        simp [htu, h1]
    · have : ¬ d ++ List.drop s.length e.1 = q := by
        intro h
        exact hd ⟨_, h⟩
      simp [hd, this]

theorem lookup_move_entries (es : List (Path × Node)) (s d q : Path) :
    lookup (move_entries es s d) q
      = if d <+: q then lookup es (s ++ q.drop d.length)
        else if s <+: q then none else lookup es q := by
  unfold move_entries
  rw [lookup_append]
  have h1 := lookup_filter (fun p => decide (¬ s <+: p) && decide (¬ d <+: p)) es q
  have h2 := lookup_reroot s d (es.filter (fun e => decide (s <+: e.1))) q
    (by intro e he; simpa using (List.mem_filter.mp he).2)
  have h3 := lookup_filter (fun p => decide (s <+: p)) es (s ++ q.drop d.length)
  simp only [] at h1 h3
  rw [h1, h2, h3]
  by_cases hd : d <+: q
  · simp [hd]
  · by_cases hs : s <+: q
    · simp [hd, hs]
    · simp [hd, hs]
      cases lookup es q <;> rfl

theorem lookup_ne_none_mem (es : List (Path × Node)) (p : Path) (h : lookup es p ≠ none) :
    ∃ e ∈ es, e.1 = p := by
  induction es with
  | nil => simp [lookup] at h
  | cons e es ih =>
    by_cases he : e.1 = p
    · exact ⟨e, List.mem_cons_self _ _, he⟩
    · simp only [lookup, he, if_false] at h
      obtain ⟨x, hx, hxp⟩ := ih h
      exact ⟨x, List.mem_cons_of_mem _ hx, hxp⟩

theorem mem_lookup_ne_none (es : List (Path × Node)) (e : Path × Node) (h : e ∈ es) :
    lookup es e.1 ≠ none := by
  induction es with
  | nil => simp at h
  | cons x es ih =>
    by_cases hx : x.1 = e.1
    · simp [lookup, hx]
    · simp only [lookup, hx, if_false]
      rcases List.mem_cons.mp h with h | h
      · subst h; exact absurd rfl hx
      · exact ih h

theorem wf_table_is_tree (es : List (Path × Node)) (h : wf_table es = true) : is_tree es := by
  simp only [wf_table, Bool.and_eq_true, decide_eq_true_eq, List.all_eq_true, Bool.or_eq_true] at h
  refine ⟨h.1, ?_⟩
  intro p n hne
  obtain ⟨e, he, hep⟩ := lookup_ne_none_mem es _ hne
  rcases h.2 e he with h1 | h1
  · rw [hep] at h1
    simp at h1
  · rw [hep] at h1
    simpa using h1

theorem is_tree_above (es : List (Path × Node)) (ht : is_tree es) (p q : Path)
    (hne : lookup es (p ++ q) ≠ none) (hq : q ≠ []) : lookup es p = some Node.directory := by
  induction q using List.reverseRecOn with
  | nil => exact absurd rfl hq
  | append_singleton q n ih =>
    rw [← List.append_assoc] at hne
    have h1 := ht.2 (p ++ q) n hne
    by_cases hq0 : q = []
    · subst hq0
      simpa using h1
    · exact ih (by rw [h1]; simp) hq0

theorem is_tree_below_none (es : List (Path × Node)) (ht : is_tree es) (p q : Path)
    (hp : lookup es p ≠ some Node.directory) (hq : q ≠ []) : lookup es (p ++ q) = none := by
  by_contra h
  exact hp (is_tree_above es ht p q h hq)

theorem is_tree_move (es : List (Path × Node)) (s d : Path) (ht : is_tree es)
    (hd : d ≠ []) (hparent : lookup es d.dropLast = some Node.directory)
    (hsd : s <+: d → s = d) : is_tree (move_entries es s d) := by
  have hd0 : ¬ d <+: [] := by simpa using hd
  have hs0 : ¬ s <+: [] := by
    intro h
    have : s = [] := by simpa using h
    subst this
    exact hd (hsd (List.nil_prefix)).symm
  refine ⟨?_, ?_⟩
  · rw [lookup_move_entries]
    simp only [hd0, hs0, if_false]
    exact ht.1
  · intro p n hne
    rw [lookup_move_entries] at hne ⊢
    by_cases hdpn : d <+: p ++ [n]
    · rcases List.prefix_concat_iff.mp hdpn with hdp | hdp
      · -- d = p ++ [n]
        have hp : p = d.dropLast := by rw [hdp]; simp
        have h1 : ¬ d <+: p := by
          intro h
          have := h.length_le
          rw [hdp] at this
          simp at this
        have h2 : ¬ s <+: p := by
          intro h
          have hsd' : s <+: d := by
            rw [hdp]; exact h.trans (List.prefix_append _ _)
          have := hsd hsd'
          have hl := h.length_le
          rw [this, hdp] at hl
          simp at hl
        simp only [h1, h2, if_false]
        rw [hp]; exact hparent
      · obtain ⟨u, hu⟩ := hdp
        subst hu
        simp only [hdpn, if_true, List.prefix_append, List.append_assoc, List.drop_left] at hne ⊢
        rw [← List.append_assoc] at hne
        exact ht.2 _ _ hne
    · simp only [hdpn, if_false] at hne
      by_cases hspn : s <+: p ++ [n]
      · simp [hspn] at hne
      · simp only [hspn, if_false] at hne
        have h1 : ¬ d <+: p := fun h => hdpn (h.trans (List.prefix_append _ _))
        have h2 : ¬ s <+: p := fun h => hspn (h.trans (List.prefix_append _ _))
        simp only [h1, h2, if_false]
        exact ht.2 _ _ hne

/-- Two different children of one directory have disjoint subtrees. -/
theorem sibling_not_below (d : Path) (n m : String) (q : Path) (h : m ≠ n) :
    ¬ (d ++ [m]) <+: (d ++ [n] ++ q) := by
  rw [List.append_assoc, List.prefix_append_right_inj]
  simp [h]

/-- Nothing below one of two unrelated paths lies below a child of the other. -/
theorem cousin_not_below (d s : Path) (hds : ¬ d <+: s) (hsd : ¬ s <+: d) (m : String)
    (q : Path) : ¬ (s ++ [m]) <+: (d ++ q) := by
  intro h
  have h1 : s <+: d ++ q := (List.prefix_append s [m]).trans h
  rcases List.prefix_or_prefix_of_prefix h1 (List.prefix_append d q) with h2 | h2
  · exact hsd h2
  · exact hds h2

theorem child_not_above (d : Path) (n : String) : ¬ (d ++ [n]) <+: d := by
  intro h
  have := h.length_le
  simp at this

/-- A successful overwriting move of `s` onto `d` is a merge of `s` into `d`. -/
theorem merged_of_move (es : List (Path × Node)) (s d : Path) (ht : is_tree es)
    (hs : lookup es s ≠ none) (hdnd : lookup es d ≠ some Node.directory) (hd : d ≠ [])
    (hparent : lookup es d.dropLast = some Node.directory)
    (hds : ¬ d <+: s) (hsd : ¬ s <+: d) : Merged d s es (move_entries es s d) := by
  have hat : ∀ q, lookup (move_entries es s d) (d ++ q) = lookup es (s ++ q) := by
    intro q
    rw [lookup_move_entries]
    simp
  refine ⟨is_tree_move es s d ht hd hparent (fun h => absurd h hsd), ?_, ?_, ?_, ?_⟩
  · intro q h1 h2
    rw [lookup_move_entries]
    simp [h1, h2]
  · intro q x hx _
    rw [hat, hx]
  · intro q hq
    rw [hat, hq]
    have hq0 : q ≠ [] := by
      rintro rfl
      simp only [List.append_nil] at hq
      exact hs hq
    exact (is_tree_below_none es ht d q hdnd hq0).symm
  · intro q x hx
    rw [lookup_move_entries] at hx
    have h1 : ¬ d <+: s ++ q := by
      intro h
      rcases List.prefix_or_prefix_of_prefix h (List.prefix_append s q) with h2 | h2
      · exact hds h2
      · exact hsd h2
    simp [h1] at hx

/-- One more child in front of the loop. -/
theorem children_merged_cons (d s : Path) (n : String) (names : List String)
    (es es0 es1 : List (Path × Node)) (hds : ¬ d <+: s) (hsd : ¬ s <+: d) (hn : n ∉ names)
    (h0 : Merged (d ++ [n]) (s ++ [n]) es es0) (h1 : ChildrenMerged d s names es0 es1) :
    ChildrenMerged d s (n :: names) es es1 := by
  obtain ⟨_, f0, m0a, m0b, m0c⟩ := h0
  obtain ⟨t1, f1, m1⟩ := h1
  have hne : ∀ k ∈ names, k ≠ n := fun k hk hkn => hn (hkn ▸ hk)
  -- what lies below the child `n` on either side is outside the other children
  have f1d : ∀ q, lookup es1 (d ++ [n] ++ q) = lookup es0 (d ++ [n] ++ q) := fun q =>
    f1 _ (fun k hk => ⟨sibling_not_below d n k q (hne k hk), by
      rw [List.append_assoc]; exact cousin_not_below d s hds hsd k _⟩)
  have f1s : ∀ q, lookup es1 (s ++ [n] ++ q) = lookup es0 (s ++ [n] ++ q) := fun q =>
    f1 _ (fun k hk => ⟨by
      rw [List.append_assoc]; exact cousin_not_below s d hsd hds k _,
      sibling_not_below s n k q (hne k hk)⟩)
  -- what lies below another child is outside the child `n`
  have f0d : ∀ k ∈ names, ∀ q, lookup es0 (d ++ [k] ++ q) = lookup es (d ++ [k] ++ q) :=
    fun k hk q => f0 _ (sibling_not_below d k n q (hne k hk).symm) (by
      rw [List.append_assoc]; exact cousin_not_below d s hds hsd n _)
  have f0s : ∀ k ∈ names, ∀ q, lookup es0 (s ++ [k] ++ q) = lookup es (s ++ [k] ++ q) :=
    fun k hk q => f0 _ (by
      rw [List.append_assoc]; exact cousin_not_below s d hsd hds n _)
      (sibling_not_below s k n q (hne k hk).symm)
  refine ⟨t1, ?_, ?_⟩
  · intro q hq
    have hq1 : ∀ k ∈ names, ¬ (d ++ [k]) <+: q ∧ ¬ (s ++ [k]) <+: q :=
      fun k hk => hq k (List.mem_cons_of_mem _ hk)
    have hq0 := hq n (List.mem_cons_self _ _)
    rw [f1 q hq1, f0 q hq0.1 hq0.2]
  · intro k hk
    rcases List.mem_cons.mp hk with hk | hk
    · subst hk
      refine ⟨?_, ?_, ?_⟩
      · intro q x hx hxd
        rw [f1d, m0a q x hx hxd]
      · intro q hq
        rw [f1d, m0b q hq]
      · intro q x hx
        rw [f1s] at hx
        exact m0c q x hx
    · obtain ⟨m1a, m1b, m1c⟩ := m1 k hk
      refine ⟨?_, ?_, ?_⟩
      · intro q x hx hxd
        rw [← f0s k hk] at hx
        exact m1a q x hx hxd
      · intro q hq
        rw [← f0s k hk] at hq
        rw [m1b q hq, f0d k hk]
      · intro q x hx
        obtain ⟨hx1, hx2⟩ := m1c q x hx
        rw [f0s k hk] at hx2
        exact ⟨hx1, hx2⟩

/-- When the loop has gone over all children of `s`, `s` is merged into `d`. -/
theorem merged_of_children (d s : Path) (names : List String) (es es1 : List (Path × Node))
    (ht : is_tree es) (hds : ¬ d <+: s) (hsd : ¬ s <+: d)
    (hs : lookup es s = some Node.directory)
    (hnames : ∀ n, n ∈ names ↔ lookup es (s ++ [n]) ≠ none)
    (h : ChildrenMerged d s names es es1) : Merged d s es es1 := by
  obtain ⟨t1, f1, m1⟩ := h
  -- a path below the source whose first step is a child
  have hchild : ∀ m q, lookup es (s ++ m :: q) ≠ none → m ∈ names := by
    intro m q hne
    rw [hnames]
    by_cases hq : q = []
    · subst hq; exact hne
    · have : s ++ m :: q = (s ++ [m]) ++ q := by simp
      rw [this] at hne
      rw [is_tree_above es ht (s ++ [m]) q hne hq]
      simp
  have hnochild : ∀ m q, m ∉ names → lookup es (s ++ m :: q) = none := by
    intro m q hm
    by_contra hne
    exact hm (hchild m q hne)
  -- a path whose first step is not a child is outside all children
  have houtd : ∀ m q, m ∉ names → lookup es1 (d ++ m :: q) = lookup es (d ++ m :: q) := by
    intro m q hm
    have e : d ++ m :: q = d ++ [m] ++ q := by simp
    refine f1 _ (fun k hk => ⟨?_, cousin_not_below d s hds hsd k _⟩)
    rw [e]
    exact sibling_not_below d m k q (fun hkm => hm (hkm ▸ hk))
  have houts : ∀ m q, m ∉ names → lookup es1 (s ++ m :: q) = lookup es (s ++ m :: q) := by
    intro m q hm
    have e : s ++ m :: q = s ++ [m] ++ q := by simp
    refine f1 _ (fun k hk => ⟨cousin_not_below s d hsd hds k _, ?_⟩)
    rw [e]
    exact sibling_not_below s m k q (fun hkm => hm (hkm ▸ hk))
  refine ⟨t1, ?_, ?_, ?_, ?_⟩
  · intro q hdq hsq
    exact f1 q (fun k _ =>
      ⟨fun h => hdq ((List.prefix_append d [k]).trans h),
       fun h => hsq ((List.prefix_append s [k]).trans h)⟩)
  · intro q x hx hxd
    cases q with
    | nil =>
      simp only [List.append_nil] at hx
      rw [hs] at hx
      exact absurd (Option.some.inj hx).symm hxd
    | cons m q =>
      have hm : m ∈ names := hchild m q (by rw [hx]; simp)
      have e1 : s ++ m :: q = s ++ [m] ++ q := by simp
      have e2 : d ++ m :: q = d ++ [m] ++ q := by simp
      rw [e1] at hx
      rw [e2]
      exact (m1 m hm).1 q x hx hxd
  · intro q hq
    cases q with
    | nil =>
      simp only [List.append_nil] at hq
      rw [hs] at hq
      cases hq
    | cons m q =>
      by_cases hm : m ∈ names
      · have e1 : s ++ m :: q = s ++ [m] ++ q := by simp
        have e2 : d ++ m :: q = d ++ [m] ++ q := by simp
        rw [e1] at hq
        rw [e2]
        exact (m1 m hm).2.1 q hq
      · exact houtd m q hm
  · intro q x hx
    cases q with
    | nil =>
      have hself : lookup es1 s = lookup es s :=
        f1 s (fun k _ => ⟨fun h => hds ((List.prefix_append d [k]).trans h),
          child_not_above s k⟩)
      simp only [List.append_nil] at hx ⊢
      rw [hself, hs] at hx
      exact ⟨(Option.some.inj hx).symm, hs⟩
    | cons m q =>
      by_cases hm : m ∈ names
      · have e1 : s ++ m :: q = s ++ [m] ++ q := by simp
        rw [e1] at hx ⊢
        exact (m1 m hm).2.2 q x hx
      · rw [houts m q hm, hnochild m q hm] at hx
        cases hx

/-- What a successful in-memory move with the flags of line 216 tells. -/
theorem mem_move_ok (s d : Path) (c : Option GCancellable) (fs : MemFS) (u : Unit)
    (h : (mem_move s d move_flags c fs).1 = .ok u) :
    lookup fs.entries s ≠ none ∧ lookup fs.entries d ≠ some Node.directory ∧ d ≠ [] ∧
    lookup fs.entries d.dropLast = some Node.directory ∧ (s <+: d → s = d) ∧
    (mem_move s d move_flags c fs).2.entries = move_entries fs.entries s d := by
  have hflag : ¬ (move_flags &&& G_FILE_COPY_OVERWRITE = 0) := by decide
  unfold mem_move at h ⊢
  cases hc : g_cancellable_set_error_if_cancelled c with
  | some e => simp [hc] at h
  | none =>
    simp only [hc] at h ⊢
    cases hs : lookup fs.entries s with
    | none => simp [hs] at h
    | some ns =>
      simp only [hs] at h ⊢
      have hblocked : lookup fs.entries d ≠ some Node.directory := by
        intro hd
        by_cases hns : ns = Node.directory <;> simp [hd, hflag, hns] at h
      have hnone : (match lookup fs.entries d with
          | none => (none : Option GError)
          | some nd =>
            if move_flags &&& G_FILE_COPY_OVERWRITE = 0 then
              some (g_set_error G_IO_ERROR G_IO_ERROR_EXISTS "Target file exists")
            else if nd = Node.directory then
              (if ns = Node.directory then
                some (g_set_error G_IO_ERROR G_IO_ERROR_WOULD_MERGE
                  "Can't move directory over directory")
              else some (g_set_error G_IO_ERROR G_IO_ERROR_IS_DIRECTORY
                  "Can't copy over directory"))
            else none) = none := by
        cases hd : lookup fs.entries d with
        | none => rfl
        | some nd =>
          have : nd ≠ Node.directory := fun hnd => hblocked (by rw [hd, hnd])
          simp [hflag, this]
      simp only [hnone] at h ⊢
      by_cases hp : lookup fs.entries d.dropLast ≠ some Node.directory ∨ d = []
      · simp [hp] at h
      · simp only [hp, if_false] at h ⊢
        by_cases hsd : s <+: d ∧ s ≠ d
        · simp [hsd] at h
        · simp only [hsd, if_false]
          push_neg at hp hsd
          exact ⟨by simp, hblocked, hp.2, hp.1, hsd, trivial⟩

/-- What a successful in-memory enumeration tells. -/
theorem mem_enumerate_ok (s : Path) (a : String) (k : Nat) (c : Option GCancellable)
    (fs : MemFS) (en : GFileEnumerator)
    (h : mem_enumerate_children s a k c fs = .ok en) :
    lookup fs.entries s = some Node.directory ∧ en.final = none ∧
    en.pending.map (fun i => i.name) = child_names fs.entries s := by
  unfold mem_enumerate_children at h
  cases hc : g_cancellable_set_error_if_cancelled c with
  | some e => simp [hc] at h
  | none =>
    simp only [hc] at h
    cases hs : lookup fs.entries s with
    | none => simp [hs] at h
    | some ns =>
      cases ns <;> simp only [hs] at h <;> try (simp at h)
      subst h
      simp [Function.comp_def]

/-- The names the enumeration hands out are the children that exist. -/
theorem mem_child_names (es : List (Path × Node)) (d : Path) (n : String) :
    n ∈ child_names es d ↔ lookup es (d ++ [n]) ≠ none := by
  unfold child_names
  rw [List.mem_dedup, List.mem_filterMap]
  constructor
  · rintro ⟨e, he, hen⟩
    by_cases hd : e.1.dropLast = d
    · simp only [hd, if_true] at hen
      have := List.dropLast_append_getLast? n hen
      rw [hd] at this
      rw [this]
      exact mem_lookup_ne_none es e he
    · simp [hd] at hen
  · intro h
    obtain ⟨e, he, hep⟩ := lookup_ne_none_mem es _ h
    refine ⟨e, he, ?_⟩
    simp [hep]

theorem child_names_nodup (es : List (Path × Node)) (d : Path) : (child_names es d).Nodup :=
  List.nodup_dedup _

/-- A destination the in-memory query reports as a directory is one. -/
theorem mem_query_directory (d : Path) (a : String) (k : Nat) (c : Option GCancellable)
    (fs : MemFS) (info : GFileInfo) (h : mem_query_info d a k c fs = .ok info)
    (ht : info.type = G_FILE_TYPE_DIRECTORY) : lookup fs.entries d = some Node.directory := by
  unfold mem_query_info at h
  cases hc : g_cancellable_set_error_if_cancelled c with
  | some e => simp [hc] at h
  | none =>
    simp only [hc] at h
    cases hd : lookup fs.entries d with
    | none => simp [hd] at h
    | some n =>
      simp only [hd, Except.ok.injEq] at h
      subst h
      cases n <;> simp [Node.type] at ht
      rfl

/-- The loop body merges the child it is given. -/
theorem merged_of_child
    (recurse : Path → Path → World MemFS Path → Option (GResult × World MemFS Path))
    (d s : Path) (c : Option GCancellable) (hds : ¬ d <+: s) (hsd : ¬ s <+: d)
    (hrec : ∀ n (w : World MemFS Path) r w1, is_tree w.fs.entries →
      recurse (d ++ [n]) (s ++ [n]) w = some (r, w1) → r.ret = true →
      Merged (d ++ [n]) (s ++ [n]) w.fs.entries w1.fs.entries)
    (info : GFileInfo) (w : World MemFS Path) (r : GResult) (w1 : World MemFS Path)
    (ht : is_tree w.fs.entries)
    (h : merge_child mem recurse d s c info w = some (r, w1)) (hr : r.ret = true) :
    Merged (d ++ [info.name]) (s ++ [info.name]) w.fs.entries w1.fs.entries := by
  unfold merge_child at h
  by_cases hty : info.type = G_FILE_TYPE_DIRECTORY
  · simp only [hty, if_true] at h
    exact hrec info.name w r w1 ht h hr
  · simp only [hty, if_false] at h
    change (match (mem_move (s ++ [info.name]) (d ++ [info.name]) move_flags c w.fs).1 with
      | .ok _ => _
      | .error e => _) = _ at h
    cases hmove : (mem_move (s ++ [info.name]) (d ++ [info.name]) move_flags c w.fs).1 with
    | error e =>
      simp only [hmove, Option.some.injEq, Prod.mk.injEq] at h
      obtain ⟨h1, _⟩ := h
      subst h1
      simp at hr
    | ok u =>
      simp only [hmove, Option.some.injEq, Prod.mk.injEq] at h
      obtain ⟨_, h2⟩ := h
      subst h2
      obtain ⟨m1, m2, m3, m4, _, m6⟩ := mem_move_ok _ _ c w.fs u hmove
      change Merged _ _ _ (mem_move (s ++ [info.name]) (d ++ [info.name]) move_flags c w.fs).2.entries
      rw [m6]
      exact merged_of_move _ _ _ ht m1 m2 m3 m4
        (cousin_not_below s d hsd hds info.name [info.name])
        (cousin_not_below d s hds hsd info.name [info.name])

/-- The loop merges every child it is given. -/
theorem children_merged_of_loop
    (recurse : Path → Path → World MemFS Path → Option (GResult × World MemFS Path))
    (d s : Path) (c : Option GCancellable) (hds : ¬ d <+: s) (hsd : ¬ s <+: d)
    (hrec : ∀ n (w : World MemFS Path) r w1, is_tree w.fs.entries →
      recurse (d ++ [n]) (s ++ [n]) w = some (r, w1) → r.ret = true →
      Merged (d ++ [n]) (s ++ [n]) w.fs.entries w1.fs.entries)
    (cs : List GFileInfo) (final : Option GError) (w : World MemFS Path) (r : GResult)
    (w1 : World MemFS Path) (ht : is_tree w.fs.entries)
    (hnd : (cs.map (fun i => i.name)).Nodup)
    (h : merge_children mem recurse d s c cs final w = some (r, w1)) (hr : r.ret = true) :
    ChildrenMerged d s (cs.map (fun i => i.name)) w.fs.entries w1.fs.entries := by
  induction cs generalizing w with
  | nil =>
    cases final with
    | some e =>
      simp only [merge_children, Option.some.injEq, Prod.mk.injEq] at h
      obtain ⟨h1, _⟩ := h
      subst h1
      simp at hr
    | none =>
      simp only [merge_children, Option.some.injEq, Prod.mk.injEq] at h
      obtain ⟨_, h2⟩ := h
      subst h2
      exact ⟨ht, fun _ _ => rfl, fun n hn => by simp at hn⟩
  | cons info rest ih =>
    simp only [merge_children] at h
    cases hstep : merge_child mem recurse d s c info (w.log (Call.next_file s)) with
    | none => simp [hstep] at h
    | some rw0 =>
      obtain ⟨r0, w0⟩ := rw0
      simp only [hstep] at h
      by_cases hr0 : r0.ret = true
      · simp only [hr0, if_true] at h
        have hm := merged_of_child recurse d s c hds hsd hrec info
          (w.log (Call.next_file s)) r0 w0 ht hstep hr0
        simp only [List.map_cons, List.nodup_cons] at hnd
        have hrest := ih w0 hm.1 hnd.2 h
        exact children_merged_cons d s info.name _ _ _ _ hds hsd hnd.1 hm hrest
      · simp only [hr0] at h
        simp only [Bool.false_eq_true, if_false, Option.some.injEq, Prod.mk.injEq] at h
        obtain ⟨h1, _⟩ := h
        subst h1
        exact absurd hr hr0

/-- A successful `ot_gfile_merge_dirs` over the in-memory provider merges the
source into the destination. -/
theorem merged_of_merge_dirs (fuel : Nat) :
    ∀ (d s : Path) (c : Option GCancellable) (w : World MemFS Path) (r : GResult)
      (w1 : World MemFS Path), is_tree w.fs.entries → ¬ d <+: s → ¬ s <+: d →
      ot_gfile_merge_dirs mem fuel d s c w = some (r, w1) → r.ret = true →
      Merged d s w.fs.entries w1.fs.entries := by
  induction fuel with
  | zero =>
    intro d s c w r w1 _ _ _ h _
    simp [ot_gfile_merge_dirs] at h
  | succ fuel ih =>
    intro d s c w r w1 ht hds hsd h hr
    unfold ot_gfile_merge_dirs at h
    change (match mem_query_info d mem.fast_queryinfo G_FILE_QUERY_INFO_NOFOLLOW_SYMLINKS c w.fs with
      | .ok dest_fileinfo => _
      | .error temp_error => _) = _ at h
    cases hq : mem_query_info d mem.fast_queryinfo G_FILE_QUERY_INFO_NOFOLLOW_SYMLINKS c w.fs with
    | ok info =>
      simp only [hq] at h
      by_cases hty : info.type = G_FILE_TYPE_DIRECTORY
      · simp only [hty, ne_eq, not_true_eq_false, if_false] at h
        change (match mem_enumerate_children s mem.fast_queryinfo
            G_FILE_QUERY_INFO_NOFOLLOW_SYMLINKS c w.fs with
          | .error e => _
          | .ok src_enum => _) = _ at h
        cases henum : mem_enumerate_children s mem.fast_queryinfo
            G_FILE_QUERY_INFO_NOFOLLOW_SYMLINKS c w.fs with
        | error e =>
          simp only [henum, Option.some.injEq, Prod.mk.injEq] at h
          obtain ⟨h1, _⟩ := h
          subst h1
          simp at hr
        | ok en =>
          simp only [henum] at h
          obtain ⟨hs, _, hnames⟩ := mem_enumerate_ok _ _ _ _ _ _ henum
          have hloop := children_merged_of_loop
            (fun d0 s0 w0 => ot_gfile_merge_dirs mem fuel d0 s0 c w0) d s c hds hsd
            (fun n w0 r0 w2 ht0 h0 hr0 => ih _ _ c w0 r0 w2 ht0
              (cousin_not_below s d hsd hds n [n]) (cousin_not_below d s hds hsd n [n]) h0 hr0)
            en.pending en.final
            ((w.log (Call.query_info d mem.fast_queryinfo G_FILE_QUERY_INFO_NOFOLLOW_SYMLINKS)).log
              (Call.enumerate_children s mem.fast_queryinfo G_FILE_QUERY_INFO_NOFOLLOW_SYMLINKS))
            r w1 ht (by rw [hnames]; exact child_names_nodup _ _) h hr
          rw [hnames] at hloop
          exact merged_of_children d s _ _ _ ht hds hsd hs
            (fun n => mem_child_names _ _ _) hloop
      · simp only [ne_eq, hty, not_false_eq_true, if_true, Option.some.injEq,
          Prod.mk.injEq] at h
        obtain ⟨h1, _⟩ := h
        subst h1
        simp at hr
    | error e =>
      simp only [hq] at h
      by_cases hnf : g_error_matches (some e) G_IO_ERROR G_IO_ERROR_NOT_FOUND = true
      · simp only [hnf, if_true] at h
        change (match (mem_move s d move_flags c w.fs).1 with
          | .ok _ => _
          | .error e => _) = _ at h
        cases hmove : (mem_move s d move_flags c w.fs).1 with
        | error e1 =>
          simp only [hmove, Option.some.injEq, Prod.mk.injEq] at h
          obtain ⟨h1, _⟩ := h
          subst h1
          simp at hr
        | ok u =>
          simp only [hmove, Option.some.injEq, Prod.mk.injEq] at h
          obtain ⟨_, h2⟩ := h
          subst h2
          obtain ⟨m1, m2, m3, m4, _, m6⟩ := mem_move_ok _ _ c w.fs u hmove
          change Merged _ _ _ (mem_move s d move_flags c w.fs).2.entries
          rw [m6]
          exact merged_of_move _ _ _ ht m1 m2 m3 m4 hds hsd
      · simp only [hnf] at h
        simp only [Bool.false_eq_true, if_false, Option.some.injEq, Prod.mk.injEq] at h
        obtain ⟨h1, _⟩ := h
        subst h1
        simp at hr

/-! ### The recursion returns -/

theorem length_le_table_depth (es : List (Path × Node)) (p : Path) (h : lookup es p ≠ none) :
    p.length ≤ table_depth es := by
  induction es with
  | nil => simp [lookup] at h
  | cons e es ih =>
    simp only [table_depth, List.map_cons, List.foldr_cons]
    by_cases he : e.1 = p
    · subst he
      exact Nat.le_max_left _ _
    · simp only [lookup, he, if_false] at h
      exact Nat.le_trans (ih h) (Nat.le_max_right _ _)

/-- The loop returns when the recursive call returns on every child the loop can
reach. `K` bounds the depth of what lies below the children still to come. -/
theorem merge_children_returns (k K : Nat) (d s : Path) (c : Option GCancellable)
    (hds : ¬ d <+: s) (hsd : ¬ s <+: d)
    (hterm : ∀ n (w : World MemFS Path), is_tree w.fs.entries →
      lookup w.fs.entries (s ++ [n]) ≠ none →
      (∀ q, lookup w.fs.entries (s ++ [n] ++ q) ≠ none → q.length + 1 ≤ K) →
      ∃ rw, ot_gfile_merge_dirs mem k (d ++ [n]) (s ++ [n]) c w = some rw)
    (cs : List GFileInfo) (final : Option GError) (w : World MemFS Path)
    (ht : is_tree w.fs.entries) (hnd : (cs.map (fun i => i.name)).Nodup)
    (hinv : ∀ n ∈ cs.map (fun i => i.name), lookup w.fs.entries (s ++ [n]) ≠ none ∧
      ∀ q, lookup w.fs.entries (s ++ [n] ++ q) ≠ none → q.length + 1 ≤ K) :
    ∃ rw, merge_children mem (fun d0 s0 w0 => ot_gfile_merge_dirs mem k d0 s0 c w0)
      d s c cs final w = some rw := by
  induction cs generalizing w with
  | nil =>
    cases final with
    | none => exact ⟨_, rfl⟩
    | some e => exact ⟨_, rfl⟩
  | cons info rest ih =>
    simp only [List.map_cons, List.nodup_cons] at hnd
    have hin := hinv info.name (by simp)
    have hstep : ∃ rw0, merge_child mem (fun d0 s0 w0 => ot_gfile_merge_dirs mem k d0 s0 c w0)
        d s c info (w.log (Call.next_file s)) = some rw0 := by
      unfold merge_child
      by_cases hty : info.type = G_FILE_TYPE_DIRECTORY
      · simp only [hty, if_true]
        exact hterm info.name (w.log (Call.next_file s)) ht hin.1 hin.2
      · simp only [hty, if_false]
        split <;> exact ⟨_, rfl⟩
    obtain ⟨⟨r0, w0⟩, hstep⟩ := hstep
    simp only [merge_children, hstep]
    by_cases hr0 : r0.ret = true
    · simp only [hr0, if_true]
      have hm := merged_of_child (fun d0 s0 w0 => ot_gfile_merge_dirs mem k d0 s0 c w0)
        d s c hds hsd
        (fun n w2 r2 w3 ht2 h2 hr2 => merged_of_merge_dirs k _ _ c w2 r2 w3 ht2
          (cousin_not_below s d hsd hds n [n]) (cousin_not_below d s hds hsd n [n]) h2 hr2)
        info (w.log (Call.next_file s)) r0 w0 ht hstep hr0
      obtain ⟨t0, f0, _⟩ := hm
      have hframe : ∀ n ∈ rest.map (fun i => i.name), ∀ q,
          lookup w0.fs.entries (s ++ [n] ++ q) = lookup w.fs.entries (s ++ [n] ++ q) := by
        intro n hn q
        have hne : n ≠ info.name := fun h => hnd.1 (h ▸ hn)
        exact f0 _ (by
            rw [List.append_assoc]
            exact cousin_not_below s d hsd hds info.name _)
          (sibling_not_below s n info.name q hne.symm)
      refine ih w0 t0 hnd.2 ?_
      intro n hn
      have hold := hinv n (List.mem_cons_of_mem _ hn)
      refine ⟨?_, ?_⟩
      · have := hframe n hn []
        simp only [List.append_nil] at this
        rw [this]
        exact hold.1
      · intro q hq
        rw [hframe n hn q] at hq
        exact hold.2 q hq
    · simp only [hr0]
      exact ⟨_, rfl⟩

/-- Over the in-memory provider `ot_gfile_merge_dirs` returns once the bound on
the recursion exceeds the depth of the source tree. -/
theorem merge_dirs_returns (K : Nat) :
    ∀ (d s : Path) (c : Option GCancellable) (w : World MemFS Path),
      is_tree w.fs.entries → ¬ d <+: s → ¬ s <+: d →
      (∀ q, lookup w.fs.entries (s ++ q) ≠ none → q.length ≤ K) →
      ∃ rw, ot_gfile_merge_dirs mem (K + 1) d s c w = some rw := by
  induction K with
  | zero =>
    intro d s c w ht hds hsd hb
    unfold ot_gfile_merge_dirs
    split
    · split
      · exact ⟨_, rfl⟩
      · split
        · exact ⟨_, rfl⟩
        · rename_i en henum
          obtain ⟨_, _, hnames⟩ := mem_enumerate_ok s mem.fast_queryinfo
            G_FILE_QUERY_INFO_NOFOLLOW_SYMLINKS c w.fs en henum
          refine merge_children_returns 0 0 d s c hds hsd ?_ en.pending en.final _ ht
            (by rw [hnames]; exact child_names_nodup _ _) ?_
          · intro n w0 _ _ hb0
            have := hb0 [] (by simpa using ‹lookup w0.fs.entries (s ++ [n]) ≠ none›)
            simp at this
          · intro n hn
            rw [hnames, mem_child_names] at hn
            have := hb [n] hn
            simp at this
    · split
      · dsimp only
        cases (mem.g_file_move s d move_flags c w.fs).1 <;> exact ⟨_, rfl⟩
      · exact ⟨_, rfl⟩
  | succ K ih =>
    intro d s c w ht hds hsd hb
    unfold ot_gfile_merge_dirs
    split
    · split
      · exact ⟨_, rfl⟩
      · split
        · exact ⟨_, rfl⟩
        · rename_i en henum
          obtain ⟨_, _, hnames⟩ := mem_enumerate_ok s mem.fast_queryinfo
            G_FILE_QUERY_INFO_NOFOLLOW_SYMLINKS c w.fs en henum
          refine merge_children_returns (K + 1) (K + 1) d s c hds hsd ?_ en.pending en.final _ ht
            (by rw [hnames]; exact child_names_nodup _ _) ?_
          · intro n w0 ht0 _ hb0
            exact ih _ _ c w0 ht0 (cousin_not_below s d hsd hds n [n])
              (cousin_not_below d s hds hsd n [n])
              (fun q hq => by have := hb0 q hq; omega)
          · intro n hn
            rw [hnames, mem_child_names] at hn
            refine ⟨hn, ?_⟩
            intro q hq
            have := hb ([n] ++ q) (by rw [← List.append_assoc]; exact hq)
            simpa using this
    · split
      · dsimp only
        cases (mem.g_file_move s d move_flags c w.fs).1 <;> exact ⟨_, rfl⟩
      · exact ⟨_, rfl⟩

/-- On a tree-shaped table the depth of the table is bound enough. -/
theorem merge_dirs_returns_on_tree (d s : Path) (c : Option GCancellable)
    (w : World MemFS Path) (hwf : wf_table w.fs.entries = true)
    (hds : ¬ d <+: s) (hsd : ¬ s <+: d) :
    ∃ rw, ot_gfile_merge_dirs mem (table_depth w.fs.entries + 1) d s c w = some rw := by
  refine merge_dirs_returns _ d s c w (wf_table_is_tree _ hwf) hds hsd ?_
  intro q hq
  have := length_le_table_depth _ _ hq
  simp only [List.length_append] at this
  omega

/-- The template with prefix `pre-` and suffix `.suf`, filled in. -/
theorem fill_last_named (dpath r : List Char) :
    fill_last (dpath ++ "/pre-XXXXXX.suf".data) r
      = some (dpath ++ "/pre-".data ++ r ++ ".suf".data) := by
  unfold fill_last
  have e : (dpath ++ "/pre-XXXXXX.suf".data).reverse
      = 'f' :: 'u' :: 's' :: '.' :: 'X' :: 'X' :: 'X' :: 'X' :: 'X' :: 'X' :: '-' :: 'e' :: 'r'
          :: 'p' :: '/' :: dpath.reverse := by
    simp [List.reverse_append]
  rw [e]
  simp [fill_first, placeholder]

/-- Creating the missing directories of a chain keeps what exists. -/
theorem make_chain_keeps (todo : List String) :
    ∀ (es es1 : List (Path × Node)) (done : Path), make_chain es done todo = .ok es1 →
      ∀ q, lookup es q ≠ none → lookup es1 q ≠ none := by
  induction todo with
  | nil =>
    intro es es1 done h q hq
    simp only [make_chain, Except.ok.injEq] at h
    subst h
    exact hq
  | cons c todo ih =>
    intro es es1 done h q hq
    simp only [make_chain] at h
    cases hl : lookup es (done ++ [c]) with
    | none =>
      simp only [hl] at h
      refine ih _ _ _ h q ?_
      simp only [lookup]
      split
      · simp
      · exact hq
    | some n =>
      cases n <;> simp only [hl] at h <;> try (cases h)
      exact ih _ _ _ h q hq

/-- Creating the missing directories of a chain creates its end. -/
theorem make_chain_creates (todo : List String) :
    ∀ (es es1 : List (Path × Node)) (done : Path), make_chain es done todo = .ok es1 →
      todo ≠ [] → lookup es1 (done ++ todo) ≠ none := by
  induction todo with
  | nil => intro _ _ _ _ h; exact absurd rfl h
  | cons c todo ih =>
    intro es es1 done h _
    simp only [make_chain] at h
    have e : done ++ c :: todo = (done ++ [c]) ++ todo := by simp
    cases hl : lookup es (done ++ [c]) with
    | none =>
      simp only [hl] at h
      by_cases ht : todo = []
      · subst ht
        simp only [make_chain, Except.ok.injEq] at h
        subst h
        simp [lookup]
      · rw [e]
        exact ih _ _ _ h ht
    | some n =>
      cases n <;> simp only [hl] at h <;> try (cases h)
      by_cases ht : todo = []
      · subst ht
        simp only [make_chain, Except.ok.injEq] at h
        subst h
        rw [hl]
        simp
      · rw [e]
        exact ih _ _ _ h ht

/-- On a path that exists, `ot_gfile_ensure_directory` over the in-memory provider
succeeds and changes nothing. -/
theorem ensure_directory_of_exists (p : Path) (n : Node) (with_parents : Bool)
    (w : World MemFS Path) (h : lookup w.fs.entries p = some n) :
    ot_gfile_ensure_directory mem p with_parents w
      = ({ ret := true, error := none },
         { fs := w.fs,
           trace := w.trace ++ [if with_parents then Call.make_directory_with_parents p
             else Call.make_directory p] }) := by
  cases with_parents <;>
    simp [ot_gfile_ensure_directory, mem, mem_make_directory, mem_make_directory_with_parents,
      g_cancellable_set_error_if_cancelled, h, g_error_matches, g_set_error]

/-- After a successful `ot_gfile_ensure_directory` over the in-memory provider the
path exists. -/
theorem exists_of_ensure_directory (p : Path) (with_parents : Bool) (w : World MemFS Path)
    (hroot : lookup w.fs.entries [] ≠ none)
    (h : (ot_gfile_ensure_directory mem p with_parents w).1.ret = true) :
    lookup (ot_gfile_ensure_directory mem p with_parents w).2.fs.entries p ≠ none := by
  cases hp : lookup w.fs.entries p with
  | some n =>
    rw [ensure_directory_of_exists p n with_parents w hp]
    simp [hp]
  | none =>
    cases with_parents with
    | false =>
      simp only [ot_gfile_ensure_directory, mem, mem_make_directory,
        g_cancellable_set_error_if_cancelled, hp, Bool.false_eq_true, if_false] at h ⊢
      cases hd : lookup w.fs.entries p.dropLast with
      | none =>
        simp only [hd] at h
        unfold missing_error at h
        split at h <;> simp [g_error_matches, g_set_error] at h
      | some n =>
        cases n with
        | directory =>
          simp only [hd]
          simp [lookup]
        | regular _ _ =>
          simp only [hd] at h
          simp [g_error_matches, g_set_error] at h
        | symlink _ =>
          simp only [hd] at h
          simp [g_error_matches, g_set_error] at h
        | special =>
          simp only [hd] at h
          simp [g_error_matches, g_set_error] at h
    | true =>
      simp only [ot_gfile_ensure_directory, mem, mem_make_directory_with_parents,
        g_cancellable_set_error_if_cancelled, hp, if_true] at h ⊢
      cases hc : make_chain w.fs.entries [] p with
      | error e =>
        simp only [hc] at h
        -- the only error of a chain is "not a directory"
        have : e = g_set_error G_IO_ERROR G_IO_ERROR_NOT_DIRECTORY "Not a directory" := by
          clear h hp hroot
          generalize w.fs.entries = es at hc
          generalize ([] : Path) = done at hc
          induction p generalizing es done with
          | nil => simp [make_chain] at hc
          | cons c todo ih =>
            simp only [make_chain] at hc
            cases hl : lookup es (done ++ [c]) with
            | none =>
              simp only [hl] at hc
              exact ih _ _ hc
            | some n =>
              cases n <;> simp only [hl] at hc <;>
                first
                | exact ih _ _ hc
                | (simp only [Except.error.injEq] at hc; exact hc.symm)
        subst this
        simp [g_error_matches, g_set_error] at h
      | ok es1 =>
        simp only [hc]
        have hne : p ≠ [] := by
          rintro rfl
          exact hroot hp
        have := make_chain_creates p _ _ [] hc hne
        simpa using this

end Tables

section Generic

variable {σ F : Type}

/-- C1. When the no-follow query on the destination succeeds and reports
anything but a directory, `ot_gfile_merge_dirs` returns `FALSE` with an error
whose message names the destination path and the source path; the only call
issued is that query, so no enumeration and no move happens and the filesystem
state is the one before the call. -/
theorem merge_dirs_rejects_non_directory_destination
    (P : Provider σ F) (fuel : Nat) (destination src : F)
    (cancellable : Option GCancellable) (w : World σ F) (dest_fileinfo : GFileInfo)
    (hquery : P.g_file_query_info destination P.fast_queryinfo
      G_FILE_QUERY_INFO_NOFOLLOW_SYMLINKS cancellable w.fs = .ok dest_fileinfo)
    (htype : dest_fileinfo.type ≠ G_FILE_TYPE_DIRECTORY) :
    ∃ (e : GError) (w1 : World σ F),
      ot_gfile_merge_dirs P (fuel + 1) destination src cancellable w
        = some ({ ret := false, error := some e }, w1) ∧
      e.domain = G_IO_ERROR ∧ e.code = G_IO_ERROR_FAILED ∧
      e.message = "Attempting to replace non-directory " ++ ot_gfile_get_path_cached P destination
        ++ " with directory " ++ ot_gfile_get_path_cached P src ∧
      (ot_gfile_get_path_cached P destination).data <:+: e.message.data ∧
      (ot_gfile_get_path_cached P src).data <:+: e.message.data ∧
      w1.fs = w.fs ∧
      w1.trace = w.trace ++
        [Call.query_info destination P.fast_queryinfo G_FILE_QUERY_INFO_NOFOLLOW_SYMLINKS] ∧
      (∀ c ∈ w1.trace, c ∉ w.trace →
        (∀ f a k, c ≠ Call.enumerate_children f a k) ∧ (∀ f g k, c ≠ Call.move f g k)) := by
  refine ⟨g_set_error G_IO_ERROR G_IO_ERROR_FAILED
      ("Attempting to replace non-directory " ++ ot_gfile_get_path_cached P destination
        ++ " with directory " ++ ot_gfile_get_path_cached P src),
    w.log (Call.query_info destination P.fast_queryinfo G_FILE_QUERY_INFO_NOFOLLOW_SYMLINKS),
    ?_, rfl, rfl, rfl, ?_, ?_, rfl, rfl, ?_⟩
  · simp [ot_gfile_merge_dirs, hquery, htype, g_set_error]
  · refine ⟨"Attempting to replace non-directory ".data,
      (" with directory " ++ ot_gfile_get_path_cached P src).data, ?_⟩
    simp [g_set_error, String.data_append, List.append_assoc]
  · refine ⟨("Attempting to replace non-directory " ++ ot_gfile_get_path_cached P destination
        ++ " with directory ").data, [], ?_⟩
    simp [g_set_error, String.data_append, List.append_assoc]
  · intro c hc hnew
    simp only [World.log, List.mem_append, List.mem_singleton] at hc
    rcases hc with hc | hc
    · exact absurd hc hnew
    · subst hc
      exact ⟨fun _ _ _ h => (by cases h), fun _ _ _ h => (by cases h)⟩

/-- C2, what the code does. When the query on the destination fails with an
error that is not `G_IO_ERROR_NOT_FOUND`, `ot_gfile_merge_dirs` returns `FALSE`,
issues no further call and leaves the state alone, but it leaves `*error`
unset: the query's error sits in `temp_error` and is never propagated. -/
theorem merge_dirs_drops_query_error
    (P : Provider σ F) (fuel : Nat) (destination src : F)
    (cancellable : Option GCancellable) (w : World σ F) (temp_error : GError)
    (hquery : P.g_file_query_info destination P.fast_queryinfo
      G_FILE_QUERY_INFO_NOFOLLOW_SYMLINKS cancellable w.fs = .error temp_error)
    (hother : g_error_matches (some temp_error) G_IO_ERROR G_IO_ERROR_NOT_FOUND = false) :
    ot_gfile_merge_dirs P (fuel + 1) destination src cancellable w
      = some ({ ret := false, error := none },
          { fs := w.fs,
            trace := w.trace ++ [Call.query_info destination P.fast_queryinfo
              G_FILE_QUERY_INFO_NOFOLLOW_SYMLINKS] }) := by
  simp [ot_gfile_merge_dirs, hquery, hother, World.log]

/-- The three equations of `merge_children` are the three results of
`g_file_enumerator_next_file`: a file info, the end of the directory, an error. -/
theorem merge_children_next_file (P : Provider σ F)
    (recurse : F → F → World σ F → Option (GResult × World σ F))
    (destination src : F) (cancellable : Option GCancellable)
    (en : GFileEnumerator) (w : World σ F) :
    merge_children P recurse destination src cancellable en.pending en.final w
      = (match g_file_enumerator_next_file en with
         | (.ok (some src_fileinfo), en1) =>
           (match merge_child P recurse destination src cancellable src_fileinfo
                (w.log (Call.next_file src)) with
            | none => none
            | some (r, w1) =>
              if r.ret then
                merge_children P recurse destination src cancellable en1.pending en1.final w1
              else some (r, w1))
         | (.ok none, _) => some ({ ret := true, error := none }, w.log (Call.next_file src))
         | (.error temp_error, _) =>
           some ({ ret := false, error := some temp_error }, w.log (Call.next_file src))) := by
  obtain ⟨pending, final⟩ := en
  cases pending with
  | cons info rest => simp [g_file_enumerator_next_file, merge_children]
  | nil =>
    cases final with
    | none => simp [g_file_enumerator_next_file, merge_children]
    | some e => simp [g_file_enumerator_next_file, merge_children]

/-- The loop over `before ++ rest` is the loop over `rest`, started in the world
reached once the children `before` are done. -/
theorem merge_children_append (P : Provider σ F)
    (recurse : F → F → World σ F → Option (GResult × World σ F))
    (destination src : F) (cancellable : Option GCancellable)
    (before rest : List GFileInfo) (final : Option GError) (w wk : World σ F)
    (hbefore : children_done P recurse destination src cancellable before w = some wk) :
    merge_children P recurse destination src cancellable (before ++ rest) final w
      = merge_children P recurse destination src cancellable rest final wk := by
  induction before generalizing w with
  | nil =>
    simp only [children_done, Option.some.injEq] at hbefore
    subst hbefore
    rfl
  | cons c cs ih =>
    simp only [children_done] at hbefore
    simp only [List.cons_append, merge_children]
    cases hstep : merge_child P recurse destination src cancellable c
        (w.log (Call.next_file src)) with
    | none => simp [hstep] at hbefore
    | some rw1 =>
      obtain ⟨r, w1⟩ := rw1
      simp only [hstep] at hbefore
      by_cases hr : r.ret = true
      · simp only [hr, if_true] at hbefore ⊢
        exact ih w1 hbefore
      · simp [hr] at hbefore

/-- C6. With the cancellation signal already set, `ot_gfile_create_tmp` returns
`FALSE` with the cancellation error, writes neither output, and hands back the
world it was given: no call is issued and the filesystem state is unchanged. -/
theorem create_tmp_cancelled_does_nothing
    (P : Provider σ F) (dir : F) (pfx sfx : Option String) (mode : Nat)
    (want_file want_stream : Bool) (cancellable : GCancellable) (w : World σ F)
    (hcancelled : cancellable.cancelled = true) :
    ot_gfile_create_tmp P dir pfx sfx mode want_file want_stream (some cancellable) w
      = ({ ret := false,
           error := some { domain := G_IO_ERROR, code := G_IO_ERROR_CANCELLED,
                           message := "Operation was cancelled" },
           out_file := none, out_stream := none }, w) := by
  simp [ot_gfile_create_tmp, g_cancellable_set_error_if_cancelled, hcancelled, g_set_error]

/-- C9. Let the destination be an existing directory and let the enumeration of
the source hand out `before ++ ck :: after`. If the children `before` are done
in world `wk` and handling `ck` there fails with result `r` in world `w1`
(the recursive call for a directory, the move otherwise), then
`ot_gfile_merge_dirs` returns exactly `r` and `w1`: the child's error, no call
for any child of `after`, and the state the failing child left, which keeps
what the children `before` did. -/
theorem merge_dirs_stops_at_failing_child
    (P : Provider σ F) (fuel : Nat) (destination src : F)
    (cancellable : Option GCancellable) (w wk w1 : World σ F)
    (dest_fileinfo : GFileInfo) (src_enum : GFileEnumerator)
    (before after : List GFileInfo) (ck : GFileInfo) (r : GResult)
    (hquery : P.g_file_query_info destination P.fast_queryinfo
      G_FILE_QUERY_INFO_NOFOLLOW_SYMLINKS cancellable w.fs = .ok dest_fileinfo)
    (hdir : dest_fileinfo.type = G_FILE_TYPE_DIRECTORY)
    (henum : P.g_file_enumerate_children src P.fast_queryinfo
      G_FILE_QUERY_INFO_NOFOLLOW_SYMLINKS cancellable w.fs = .ok src_enum)
    (hsplit : src_enum.pending = before ++ ck :: after)
    (hbefore : children_done P (fun d s w0 => ot_gfile_merge_dirs P fuel d s cancellable w0)
      destination src cancellable before
      ((w.log (Call.query_info destination P.fast_queryinfo
          G_FILE_QUERY_INFO_NOFOLLOW_SYMLINKS)).log
        (Call.enumerate_children src P.fast_queryinfo G_FILE_QUERY_INFO_NOFOLLOW_SYMLINKS))
      = some wk)
    (hchild : merge_child P (fun d s w0 => ot_gfile_merge_dirs P fuel d s cancellable w0)
      destination src cancellable ck (wk.log (Call.next_file src)) = some (r, w1))
    (hfail : r.ret = false) :
    ot_gfile_merge_dirs P (fuel + 1) destination src cancellable w = some (r, w1) ∧
    (ck.type = G_FILE_TYPE_DIRECTORY →
      ot_gfile_merge_dirs P fuel (P.g_file_get_child destination ck.name)
        (P.g_file_get_child src ck.name) cancellable (wk.log (Call.next_file src))
        = some (r, w1)) ∧
    (ck.type ≠ G_FILE_TYPE_DIRECTORY →
      ∃ e, (P.g_file_move (P.g_file_get_child src ck.name)
              (P.g_file_get_child destination ck.name) move_flags cancellable wk.fs).1
            = .error e ∧
        r.error = some e ∧
        w1.fs = (P.g_file_move (P.g_file_get_child src ck.name)
              (P.g_file_get_child destination ck.name) move_flags cancellable wk.fs).2 ∧
        w1.trace = wk.trace ++ [Call.next_file src,
          Call.move (P.g_file_get_child src ck.name)
            (P.g_file_get_child destination ck.name) move_flags]) := by
  refine ⟨?_, ?_, ?_⟩
  · have hloop := merge_children_append P
      (fun d s w0 => ot_gfile_merge_dirs P fuel d s cancellable w0)
      destination src cancellable before (ck :: after) src_enum.final _ wk hbefore
    simp only [ot_gfile_merge_dirs, hquery, hdir, ne_eq, not_true_eq_false, if_false, henum,
      hsplit, hloop]
    simp [merge_children, hchild, hfail]
  · intro hck
    simpa [merge_child, hck] using hchild
  · intro hck
    simp only [merge_child, hck, if_false] at hchild
    cases hmove : (P.g_file_move (P.g_file_get_child src ck.name)
        (P.g_file_get_child destination ck.name) move_flags cancellable
        (wk.log (Call.next_file src)).fs).1 with
    | ok u =>
      simp only [hmove, Option.some.injEq, Prod.mk.injEq] at hchild
      obtain ⟨hr, _⟩ := hchild
      subst hr
      simp at hfail
    | error e =>
      simp only [hmove, Option.some.injEq, Prod.mk.injEq] at hchild
      obtain ⟨hr, hw⟩ := hchild
      subst hr
      subst hw
      refine ⟨e, ?_, rfl, rfl, ?_⟩
      · simpa [World.log] using hmove
      · simp [World.log]

/-- C10. Let the destination be an existing directory and let the loop of
`ot_gfile_merge_dirs` reach a child `info` of the source in world `wk`. The
call then continues as the loop resumed at that child, and the loop body
handles the child as follows: a child whose no-follow type is directory is
handled by the recursive call on `destination/name` and `src/name` and by
nothing else; any other child is handled, whatever the recursive call would
do, by exactly one call, a move from `src/name` to `destination/name` with the
flags overwrite, no-follow-symlinks and all-metadata. So a child reported as a
symbolic link is moved, never recursed into and never enumerated. -/
theorem merge_dirs_recurses_only_into_directories
    (P : Provider σ F) (fuel : Nat) (destination src : F)
    (cancellable : Option GCancellable) (w wk : World σ F)
    (dest_fileinfo : GFileInfo) (src_enum : GFileEnumerator)
    (before after : List GFileInfo) (info : GFileInfo)
    (hquery : P.g_file_query_info destination P.fast_queryinfo
      G_FILE_QUERY_INFO_NOFOLLOW_SYMLINKS cancellable w.fs = .ok dest_fileinfo)
    (hdir : dest_fileinfo.type = G_FILE_TYPE_DIRECTORY)
    (henum : P.g_file_enumerate_children src P.fast_queryinfo
      G_FILE_QUERY_INFO_NOFOLLOW_SYMLINKS cancellable w.fs = .ok src_enum)
    (hsplit : src_enum.pending = before ++ info :: after)
    (hbefore : children_done P (fun d s w0 => ot_gfile_merge_dirs P fuel d s cancellable w0)
      destination src cancellable before
      ((w.log (Call.query_info destination P.fast_queryinfo
          G_FILE_QUERY_INFO_NOFOLLOW_SYMLINKS)).log
        (Call.enumerate_children src P.fast_queryinfo G_FILE_QUERY_INFO_NOFOLLOW_SYMLINKS))
      = some wk) :
    ot_gfile_merge_dirs P (fuel + 1) destination src cancellable w
      = (match merge_child P (fun d s w0 => ot_gfile_merge_dirs P fuel d s cancellable w0)
            destination src cancellable info (wk.log (Call.next_file src)) with
         | none => none
         | some (r, w1) =>
           if r.ret then
             merge_children P (fun d s w0 => ot_gfile_merge_dirs P fuel d s cancellable w0)
               destination src cancellable after src_enum.final w1
           else some (r, w1)) ∧
    (info.type = G_FILE_TYPE_DIRECTORY →
      merge_child P (fun d s w0 => ot_gfile_merge_dirs P fuel d s cancellable w0)
          destination src cancellable info (wk.log (Call.next_file src))
        = ot_gfile_merge_dirs P fuel (P.g_file_get_child destination info.name)
            (P.g_file_get_child src info.name) cancellable (wk.log (Call.next_file src))) ∧
    (info.type ≠ G_FILE_TYPE_DIRECTORY →
      ∀ recurse : F → F → World σ F → Option (GResult × World σ F),
        merge_child P recurse destination src cancellable info (wk.log (Call.next_file src))
          = some
              (match (P.g_file_move (P.g_file_get_child src info.name)
                  (P.g_file_get_child destination info.name) move_flags cancellable wk.fs).1 with
               | .ok _ => { ret := true, error := none }
               | .error e => { ret := false, error := some e },
               { fs := (P.g_file_move (P.g_file_get_child src info.name)
                  (P.g_file_get_child destination info.name) move_flags cancellable wk.fs).2,
                 trace := wk.trace ++ [Call.next_file src,
                   Call.move (P.g_file_get_child src info.name)
                     (P.g_file_get_child destination info.name) move_flags] })) ∧
    move_flags = G_FILE_COPY_OVERWRITE ||| G_FILE_COPY_NOFOLLOW_SYMLINKS |||
      G_FILE_COPY_ALL_METADATA ∧
    (G_FILE_TYPE_REGULAR ≠ G_FILE_TYPE_DIRECTORY ∧ G_FILE_TYPE_SYMBOLIC_LINK ≠ G_FILE_TYPE_DIRECTORY ∧
      G_FILE_TYPE_SPECIAL ≠ G_FILE_TYPE_DIRECTORY) := by
  refine ⟨?_, ?_, ?_, rfl, by decide, by decide, by decide⟩
  · have hloop := merge_children_append P
      (fun d s w0 => ot_gfile_merge_dirs P fuel d s cancellable w0)
      destination src cancellable before (info :: after) src_enum.final _ wk hbefore
    simp only [ot_gfile_merge_dirs, hquery, hdir, ne_eq, not_true_eq_false, if_false, henum,
      hsplit, hloop]
    rfl
  · intro hinfo
    simp [merge_child, hinfo]
  · intro hinfo recurse
    simp only [merge_child, hinfo, if_false, World.log]
    cases hmove : (P.g_file_move (P.g_file_get_child src info.name)
        (P.g_file_get_child destination info.name) move_flags cancellable wk.fs).1 <;>
      simp [hmove]

end Generic

section Memory

/-- C3. When the query on the destination fails with "not found",
`ot_gfile_merge_dirs` issues, after that query, exactly one call: a move of the
source onto the destination with the flags overwrite, no-follow-symlinks and
all-metadata; nothing is enumerated. It returns `TRUE` exactly when the move
succeeds and the move's error otherwise, and the state is the one the move
left. Over the in-memory provider, whose successful move relocates the whole
entry, the destination then holds at every relative path what the source held
there, and nothing is left at or below the source path. -/
theorem merge_dirs_moves_onto_missing_destination :
    (∀ (σ F : Type) (P : Provider σ F) (fuel : Nat) (destination src : F)
        (cancellable : Option GCancellable) (w : World σ F) (temp_error : GError),
      P.g_file_query_info destination P.fast_queryinfo
        G_FILE_QUERY_INFO_NOFOLLOW_SYMLINKS cancellable w.fs = .error temp_error →
      g_error_matches (some temp_error) G_IO_ERROR G_IO_ERROR_NOT_FOUND = true →
      ∃ r : GResult,
        ot_gfile_merge_dirs P (fuel + 1) destination src cancellable w
          = some (r,
              { fs := (P.g_file_move src destination move_flags cancellable w.fs).2,
                trace := w.trace ++
                  [Call.query_info destination P.fast_queryinfo
                     G_FILE_QUERY_INFO_NOFOLLOW_SYMLINKS,
                   Call.move src destination move_flags] }) ∧
        (r.ret = true ↔
          (P.g_file_move src destination move_flags cancellable w.fs).1 = .ok ()) ∧
        (∀ e, (P.g_file_move src destination move_flags cancellable w.fs).1 = .error e →
          r = { ret := false, error := some e }) ∧
        (r.ret = true → r.error = none)) ∧
    move_flags = G_FILE_COPY_OVERWRITE ||| G_FILE_COPY_NOFOLLOW_SYMLINKS |||
      G_FILE_COPY_ALL_METADATA ∧
    (∀ (fuel : Nat) (destination src : Path) (cancellable : Option GCancellable)
        (w w1 : World MemFS Path) (temp_error : GError) (r : GResult),
      wf_table w.fs.entries = true →
      mem_query_info destination mem.fast_queryinfo
        G_FILE_QUERY_INFO_NOFOLLOW_SYMLINKS cancellable w.fs = .error temp_error →
      g_error_matches (some temp_error) G_IO_ERROR G_IO_ERROR_NOT_FOUND = true →
      ot_gfile_merge_dirs mem (fuel + 1) destination src cancellable w = some (r, w1) →
      r.ret = true →
      (∀ q, lookup w1.fs.entries (destination ++ q) = lookup w.fs.entries (src ++ q)) ∧
      (∀ q, lookup w1.fs.entries (src ++ q) = none)) := by
  have generic : ∀ (σ F : Type) (P : Provider σ F) (fuel : Nat) (destination src : F)
        (cancellable : Option GCancellable) (w : World σ F) (temp_error : GError),
      P.g_file_query_info destination P.fast_queryinfo
        G_FILE_QUERY_INFO_NOFOLLOW_SYMLINKS cancellable w.fs = .error temp_error →
      g_error_matches (some temp_error) G_IO_ERROR G_IO_ERROR_NOT_FOUND = true →
      ∃ r : GResult,
        ot_gfile_merge_dirs P (fuel + 1) destination src cancellable w
          = some (r,
              { fs := (P.g_file_move src destination move_flags cancellable w.fs).2,
                trace := w.trace ++
                  [Call.query_info destination P.fast_queryinfo
                     G_FILE_QUERY_INFO_NOFOLLOW_SYMLINKS,
                   Call.move src destination move_flags] }) ∧
        (r.ret = true ↔
          (P.g_file_move src destination move_flags cancellable w.fs).1 = .ok ()) ∧
        (∀ e, (P.g_file_move src destination move_flags cancellable w.fs).1 = .error e →
          r = { ret := false, error := some e }) ∧
        (r.ret = true → r.error = none) := by
    intro σ F P fuel destination src cancellable w temp_error hq hnf
    cases hmove : (P.g_file_move src destination move_flags cancellable w.fs).1 with
    | ok u =>
      refine ⟨{ ret := true, error := none }, ?_, by simp, by simp, by simp⟩
      simp [ot_gfile_merge_dirs, hq, hnf, hmove, World.log]
    | error e =>
      refine ⟨{ ret := false, error := some e }, ?_, by simp, by simp, by simp⟩
      simp [ot_gfile_merge_dirs, hq, hnf, hmove, World.log]
  refine ⟨generic, rfl, ?_⟩
  intro fuel destination src cancellable w w1 temp_error r hwf hq hnf hrun hok
  have ht := wf_table_is_tree _ hwf
  obtain ⟨r0, h0, hiff, _, _⟩ := generic MemFS Path mem fuel destination src cancellable w
    temp_error hq hnf
  rw [h0, Option.some.injEq, Prod.mk.injEq] at hrun
  obtain ⟨hr, hw⟩ := hrun
  subst hr
  subst hw
  have hmove : (mem_move src destination move_flags cancellable w.fs).1 = .ok () :=
    hiff.mp hok
  obtain ⟨m1, m2, _, _, m5, m6⟩ := mem_move_ok _ _ cancellable w.fs () hmove
  change (∀ q, lookup (mem_move src destination move_flags cancellable w.fs).2.entries _ = _) ∧
    (∀ q, lookup (mem_move src destination move_flags cancellable w.fs).2.entries _ = none)
  rw [m6]
  -- the destination is missing: it is neither the source nor above it
  have hdest : lookup w.fs.entries destination = none := by
    unfold mem_query_info at hq
    cases hc : g_cancellable_set_error_if_cancelled cancellable with
    | some e =>
      simp only [hc, Except.error.injEq] at hq
      subst hq
      cases cancellable with
      | none => simp [g_cancellable_set_error_if_cancelled] at hc
      | some c0 =>
        simp only [g_cancellable_set_error_if_cancelled] at hc
        split at hc
        · simp only [Option.some.injEq] at hc
          subst hc
          simp [g_error_matches, g_set_error] at hnf
        · cases hc
    | none =>
      simp only [hc] at hq
      cases hd : lookup w.fs.entries destination with
      | none => rfl
      | some n => simp [hd] at hq
  have hds : ¬ destination <+: src := by
    rintro ⟨t, rfl⟩
    by_cases ht0 : t = []
    · subst ht0
      simp only [List.append_nil] at m1
      exact m1 hdest
    · have := is_tree_above _ ht destination t m1 ht0
      rw [hdest] at this
      cases this
  have hsd : ¬ src <+: destination := by
    intro h
    have := m5 h
    subst this
    exact m1 hdest
  refine ⟨?_, ?_⟩
  · intro q
    rw [lookup_move_entries]
    simp
  · intro q
    rw [lookup_move_entries]
    have h1 : ¬ destination <+: src ++ q := by
      intro h
      rcases List.prefix_or_prefix_of_prefix h (List.prefix_append src q) with h2 | h2
      · exact hds h2
      · exact hsd h2
    simp [h1]

/-- C3 at a concrete input: `/A` missing, `/B` holding `f1` and `subdir/f2`. -/
theorem merge_dirs_moves_onto_missing_destination_witness :
    ∃ w1 : World MemFS Path,
      ot_gfile_merge_dirs mem 1 ["A"] ["B"] none (mem_world table_fresh)
        = some ({ ret := true, error := none }, w1) ∧
      w1.trace = [Call.query_info ["A"] mem.fast_queryinfo G_FILE_QUERY_INFO_NOFOLLOW_SYMLINKS,
        Call.move ["B"] ["A"] 13] ∧
      lookup w1.fs.entries ["A", "f1"] = some (Node.regular (bytes "one") "t1") ∧
      lookup w1.fs.entries ["A", "subdir", "f2"] = some (Node.regular (bytes "two") "t2") ∧
      lookup w1.fs.entries ["A", "subdir"] = some Node.directory ∧
      (∀ q, lookup w1.fs.entries (["A"] ++ q) = lookup table_fresh (["B"] ++ q)) ∧
      (∀ q, lookup w1.fs.entries (["B"] ++ q) = none) := by
  have hq : mem_query_info ["A"] mem.fast_queryinfo G_FILE_QUERY_INFO_NOFOLLOW_SYMLINKS none
      (mem_world table_fresh).fs
      = .error (g_set_error G_IO_ERROR G_IO_ERROR_NOT_FOUND "No such file or directory") := rfl
  obtain ⟨r, hrun, hiff, _, _⟩ := merge_dirs_moves_onto_missing_destination.1 MemFS Path mem 0
    ["A"] ["B"] none (mem_world table_fresh) _ hq (by decide)
  have hr : r.ret = true := hiff.mpr rfl
  have hr2 : r = { ret := true, error := none } := by
    have : ot_gfile_merge_dirs mem 1 ["A"] ["B"] none (mem_world table_fresh)
        = some ({ ret := true, error := none },
            { fs := (mem_move ["B"] ["A"] move_flags none (mem_world table_fresh).fs).2,
              trace := [Call.query_info ["A"] mem.fast_queryinfo
                G_FILE_QUERY_INFO_NOFOLLOW_SYMLINKS, Call.move ["B"] ["A"] move_flags] }) := by
      decide
    rw [this] at hrun
    simp only [Option.some.injEq, Prod.mk.injEq] at hrun
    exact hrun.1.symm
  subst hr2
  obtain ⟨h1, h2⟩ := merge_dirs_moves_onto_missing_destination.2.2 0 ["A"] ["B"] none
    (mem_world table_fresh) _ _ _ (by decide) hq (by decide) hrun hr
  exact ⟨_, hrun, rfl, by decide, by decide, by decide, h1, h2⟩

/-- C4. Over the in-memory provider, whose overwriting move replaces the target
entry by the source entry and removes the source entry: let `A` and `B` be
directories of a tree-shaped table, neither inside the other. If
`ot_gfile_merge_dirs (A, B)` returns `TRUE`, then (i) every non-directory entry
`B` held at a relative path is now in `A` at that path, whatever `A` held there;
(ii) at every relative path `B` did not occupy, `A` is unchanged; (iii) what is
still below `B` are directories only, and a `B` whose children were all
non-directories has nothing left below it. -/
theorem merge_dirs_merges_source_into_destination
    (fuel : Nat) (A B : Path) (cancellable : Option GCancellable)
    (w w1 : World MemFS Path) (r : GResult)
    (hwf : wf_table w.fs.entries = true)
    (_hA : lookup w.fs.entries A = some Node.directory)
    (_hB : lookup w.fs.entries B = some Node.directory)
    (hAB : ¬ A <+: B) (hBA : ¬ B <+: A)
    (hrun : ot_gfile_merge_dirs mem fuel A B cancellable w = some (r, w1))
    (hok : r.ret = true) :
    (∀ q x, lookup w.fs.entries (B ++ q) = some x → x ≠ Node.directory →
      lookup w1.fs.entries (A ++ q) = some x) ∧
    (∀ q, lookup w.fs.entries (B ++ q) = none →
      lookup w1.fs.entries (A ++ q) = lookup w.fs.entries (A ++ q)) ∧
    (∀ q x, lookup w1.fs.entries (B ++ q) = some x → x = Node.directory) ∧
    ((∀ n x, lookup w.fs.entries (B ++ [n]) = some x → x ≠ Node.directory) →
      ∀ q, q ≠ [] → lookup w1.fs.entries (B ++ q) = none) := by
  have ht := wf_table_is_tree _ hwf
  obtain ⟨_, _, m1, m2, m3⟩ := merged_of_merge_dirs fuel A B cancellable w r w1 ht hAB hBA hrun hok
  refine ⟨m1, m2, fun q x hx => (m3 q x hx).1, ?_⟩
  intro hflat q hq
  cases hl : lookup w1.fs.entries (B ++ q) with
  | none => rfl
  | some x =>
    exfalso
    have hdir := (m3 q x hl).2
    cases q with
    | nil => exact hq rfl
    | cons n q =>
      by_cases hq0 : q = []
      · subst hq0
        exact hflat n _ hdir rfl
      · have e : B ++ n :: q = B ++ [n] ++ q := by simp
        rw [e] at hdir
        have := is_tree_above _ ht (B ++ [n]) q (by rw [hdir]; simp) hq0
        exact hflat n _ this rfl

/-- C4 at the input of the spec: `A = {f1: "old"}`, `B = {f1: "new", f2: "x"}`. -/
theorem merge_dirs_merges_source_into_destination_witness :
    ∃ w1 : World MemFS Path,
      ot_gfile_merge_dirs mem 1 ["A"] ["B"] none (mem_world table_overwrite)
        = some ({ ret := true, error := none }, w1) ∧
      lookup w1.fs.entries ["A", "f1"] = some (Node.regular (bytes "new") "t1") ∧
      lookup w1.fs.entries ["A", "f2"] = some (Node.regular (bytes "x") "t2") ∧
      (∀ q, q ≠ [] → lookup w1.fs.entries (["B"] ++ q) = none) ∧
      lookup w1.fs.entries ["B"] = some Node.directory := by
  have hrun : ot_gfile_merge_dirs mem 1 ["A"] ["B"] none (mem_world table_overwrite)
      = some ({ ret := true, error := none },
          { fs := mem_fs [([], Node.directory), (["A"], Node.directory), (["B"], Node.directory),
              (["A", "f1"], Node.regular (bytes "new") "t1"),
              (["A", "f2"], Node.regular (bytes "x") "t2")],
            trace := [Call.query_info ["A"] mem.fast_queryinfo
                G_FILE_QUERY_INFO_NOFOLLOW_SYMLINKS,
              Call.enumerate_children ["B"] mem.fast_queryinfo
                G_FILE_QUERY_INFO_NOFOLLOW_SYMLINKS,
              Call.next_file ["B"], Call.move ["B", "f1"] ["A", "f1"] 13,
              Call.next_file ["B"], Call.move ["B", "f2"] ["A", "f2"] 13,
              Call.next_file ["B"]] }) := by
    decide
  obtain ⟨h1, _, _, h4⟩ := merge_dirs_merges_source_into_destination 1 ["A"] ["B"] none
    (mem_world table_overwrite) _ _ (by decide) (by decide) (by decide) (by decide) (by decide)
    hrun rfl
  refine ⟨_, hrun, ?_, ?_, ?_, by decide⟩
  · exact h1 ["f1"] _ (by decide) (by decide)
  · exact h1 ["f2"] _ (by decide) (by decide)
  · refine h4 ?_
    intro n x hx
    have hn : n ∈ child_names table_overwrite ["B"] :=
      (mem_child_names table_overwrite ["B"] n).mpr (by
        show lookup table_overwrite (["B"] ++ [n]) ≠ none
        have : lookup (mem_world table_overwrite).fs.entries (["B"] ++ [n]) = some x := hx
        rw [show (mem_world table_overwrite).fs.entries = table_overwrite from rfl] at this
        rw [this]; simp)
    have hnames : child_names table_overwrite ["B"] = ["f1", "f2"] := by decide
    rw [hnames] at hn
    simp only [List.mem_cons, List.mem_singleton, List.not_mem_nil, or_false] at hn
    rcases hn with rfl | rfl
    · have : lookup (mem_world table_overwrite).fs.entries (["B"] ++ ["f1"])
          = some (Node.regular (bytes "new") "t1") := by decide
      rw [this] at hx
      cases hx
      simp
    · have : lookup (mem_world table_overwrite).fs.entries (["B"] ++ ["f2"])
          = some (Node.regular (bytes "x") "t2") := by decide
      rw [this] at hx
      cases hx
      simp

/-- C1 at a concrete input: `/A` is a regular file. -/
theorem merge_dirs_rejects_non_directory_destination_witness :
    ∃ (e : GError) (w1 : World MemFS Path),
      ot_gfile_merge_dirs mem 1 ["A"] ["B"] none (mem_world table_mismatch)
        = some ({ ret := false, error := some e }, w1) ∧
      e.domain = G_IO_ERROR ∧ e.code = G_IO_ERROR_FAILED ∧
      e.message = "Attempting to replace non-directory /A with directory /B" ∧
      w1.fs = mem_fs table_mismatch ∧
      w1.trace = [Call.query_info ["A"] mem.fast_queryinfo
        G_FILE_QUERY_INFO_NOFOLLOW_SYMLINKS] := by
  obtain ⟨e, w1, hrun, hdom, hcode, hmsg, _, _, hfs, htrace, _⟩ :=
    merge_dirs_rejects_non_directory_destination mem 0 ["A"] ["B"] none
      (mem_world table_mismatch) { type := G_FILE_TYPE_REGULAR, name := "A" } rfl (by decide)
  exact ⟨e, w1, hrun, hdom, hcode, hmsg.trans (by decide), hfs, htrace⟩

/-- C2 at a concrete input: the destination `/A/f1/x` lies below the regular file
`/A/f1`, so the query fails with "not a directory"; the result carries no error. -/
theorem merge_dirs_drops_query_error_witness :
    mem_query_info ["A", "f1", "x"] mem.fast_queryinfo G_FILE_QUERY_INFO_NOFOLLOW_SYMLINKS none
        (mem_world table_overwrite).fs
      = .error { domain := G_IO_ERROR, code := G_IO_ERROR_NOT_DIRECTORY,
                 message := "Not a directory" } ∧
    ot_gfile_merge_dirs mem 1 ["A", "f1", "x"] ["B"] none (mem_world table_overwrite)
      = some ({ ret := false, error := none },
              { fs := mem_fs table_overwrite,
                trace := [Call.query_info ["A", "f1", "x"] mem.fast_queryinfo
                  G_FILE_QUERY_INFO_NOFOLLOW_SYMLINKS] }) :=
  ⟨rfl, merge_dirs_drops_query_error mem 0 ["A", "f1", "x"] ["B"] none
    (mem_world table_overwrite)
    { domain := G_IO_ERROR, code := G_IO_ERROR_NOT_DIRECTORY, message := "Not a directory" }
    rfl (by decide)⟩

/-- C5, as the code has it. `ot_gfile_load_contents_utf8` issues the whole-file
read and nothing else. If the read fails with `e`, the result is failure with
`e` unchanged. If it yields bytes `b` and tag `t` and `b` is not well-formed
UTF-8 or holds a zero byte, the result is failure with the invalid-data error
and no output is written. If `b` is well-formed UTF-8 and holds no zero byte,
the result is success, the contents output (when asked for) is `b` and the tag
output (when asked for) is `t`. -/
theorem load_contents_utf8_outcome {σ F : Type} (P : Provider σ F) (file : F)
    (want_contents want_etag : Bool) (cancellable : Option GCancellable) (w : World σ F) :
    (ot_gfile_load_contents_utf8 P file want_contents want_etag cancellable w).2
      = { fs := w.fs, trace := w.trace ++ [Call.load_contents file] } ∧
    (∀ e, P.g_file_load_contents file cancellable w.fs = .error e →
      (ot_gfile_load_contents_utf8 P file want_contents want_etag cancellable w).1
        = { ret := false, error := some e, contents_out := none, etag_out := none }) ∧
    (∀ b t, P.g_file_load_contents file cancellable w.fs = .ok (b, t) →
      (¬ well_formed_utf8 b ∨ 0 ∈ b) →
      (ot_gfile_load_contents_utf8 P file want_contents want_etag cancellable w).1
        = { ret := false,
            error := some { domain := G_IO_ERROR, code := G_IO_ERROR_INVALID_DATA,
                            message := "Invalid UTF-8" },
            contents_out := none, etag_out := none }) ∧
    (∀ b t, P.g_file_load_contents file cancellable w.fs = .ok (b, t) →
      well_formed_utf8 b → 0 ∉ b →
      (ot_gfile_load_contents_utf8 P file want_contents want_etag cancellable w).1
        = { ret := true, error := none,
            contents_out := if want_contents then some b else none,
            etag_out := if want_etag then some t else none }) := by
  refine ⟨?_, ?_, ?_, ?_⟩
  · unfold ot_gfile_load_contents_utf8
    cases hl : P.g_file_load_contents file cancellable w.fs with
    | error e => rfl
    | ok bt =>
      obtain ⟨b, t⟩ := bt
      by_cases hv : g_utf8_validate b = true <;> simp [hv, World.log]
  · intro e hl
    simp [ot_gfile_load_contents_utf8, hl]
  · intro b t hl hbad
    have hv : g_utf8_validate b = false := by
      cases hval : g_utf8_validate b with
      | false => rfl
      | true =>
        have := (g_utf8_validate_iff b).mp hval
        rcases hbad with h | h
        · exact absurd this.1 h
        · exact absurd h this.2
    simp [ot_gfile_load_contents_utf8, hl, hv, g_set_error]
  · intro b t hl hwf hz
    have hv : g_utf8_validate b = true := (g_utf8_validate_iff b).mpr ⟨hwf, hz⟩
    simp [ot_gfile_load_contents_utf8, hl, hv]

/-- C5 at concrete inputs: a file with the text "hé" is handed back byte for byte
with its tag; a file with the single byte `ff` gives the invalid-data error. -/
theorem load_contents_utf8_outcome_witness :
    (ot_gfile_load_contents_utf8 mem ["hello"] true true none (mem_world table_texts)).1
      = { ret := true, error := none, contents_out := some [104, 195, 169],
          etag_out := some "1700000000:0" } ∧
    (ot_gfile_load_contents_utf8 mem ["bad"] true true none (mem_world table_texts)).1
      = { ret := false,
          error := some { domain := G_IO_ERROR, code := G_IO_ERROR_INVALID_DATA,
                          message := "Invalid UTF-8" },
          contents_out := none, etag_out := none } := by
  refine ⟨?_, ?_⟩
  · exact (load_contents_utf8_outcome mem ["hello"] true true none
      (mem_world table_texts)).2.2.2 [104, 195, 169] "1700000000:0" rfl
      ⟨[104, 233], by decide, by decide⟩ (by decide)
  · refine (load_contents_utf8_outcome mem ["bad"] true true none
      (mem_world table_texts)).2.2.1 [255] "1700000002:0" rfl (Or.inl ?_)
    intro h
    have := (g_utf8_validate_iff [255]).mpr ⟨h, by decide⟩
    revert this
    decide

/-- C5, the claim as stated fails: the bytes `61 00 62` are well-formed UTF-8 (the
scalar values U+0061, U+0000, U+0062), the read hands them out, and the result
is the invalid-data failure, not success. -/
theorem load_contents_utf8_rejects_nul :
    mem_load_contents ["nul"] none (mem_world table_texts).fs = .ok ([97, 0, 98], "1700000001:0") ∧
    well_formed_utf8 [97, 0, 98] ∧
    (ot_gfile_load_contents_utf8 mem ["nul"] true true none (mem_world table_texts)).1
      = { ret := false,
          error := some { domain := G_IO_ERROR, code := G_IO_ERROR_INVALID_DATA,
                          message := "Invalid UTF-8" },
          contents_out := none, etag_out := none } :=
  ⟨rfl, ⟨[97, 0, 98], by decide, by decide⟩, by decide⟩

/-- C6 at a concrete input. -/
theorem create_tmp_cancelled_does_nothing_witness :
    ot_gfile_create_tmp mem ["tmp"] (some "pre-") (some ".suf") 384 true true
        (some { cancelled := true }) { fs := fs_tmp, trace := [] }
      = ({ ret := false,
           error := some { domain := G_IO_ERROR, code := G_IO_ERROR_CANCELLED,
                           message := "Operation was cancelled" },
           out_file := none, out_stream := none }, { fs := fs_tmp, trace := [] }) :=
  create_tmp_cancelled_does_nothing mem ["tmp"] (some "pre-") (some ".suf") 384 true true
    { cancelled := true } { fs := fs_tmp, trace := [] } rfl

/-- C7. With a signal that is not cancelled, the first call `ot_gfile_create_tmp`
issues is the unique-create primitive, with the template
`dir_path ++ "/" ++ p ++ "XXXXXX" ++ s` (`p` the prefix given or `tmp-`, `s` the
suffix given or `.tmp`), the flags write-only and the mode it was given; the
only call that may follow is the close of the descriptor when no stream was
asked for. Hence with prefix `pre-` and suffix `.suf`, whenever the primitive
succeeds with a name that fills the template's placeholder with six letters or
digits, that name is `dir_path ++ "/" ++ base` where `base` has no slash, starts
with `pre-` and ends with `.suf`; the call returns `TRUE` and the file output is
the handle of that name. -/
theorem create_tmp_name_template {σ F : Type} (P : Provider σ F) (dir : F) (mode : Nat)
    (want_file want_stream : Bool) (cancellable : Option GCancellable) (w : World σ F)
    (hcancel : g_cancellable_set_error_if_cancelled cancellable = none) :
    (∀ pfx sfx : Option String,
      ∃ tail : List (Call F),
        (ot_gfile_create_tmp P dir pfx sfx mode want_file want_stream cancellable w).2.trace
          = w.trace ++
            Call.mkstemp_full
              (ot_gfile_get_path_cached P dir ++ "/" ++
                (match pfx with
                  | some p => p
                  | none => "tmp-") ++ "XXXXXX" ++
                (match sfx with
                  | some s => s
                  | none => ".tmp"))
              (O_WRONLY ||| O_BINARY) mode :: tail ∧
        (∀ c ∈ tail, ∃ fd, c = Call.close fd)) ∧
    (∀ (name : String) (fd : Nat),
      (P.g_mkstemp_full (ot_gfile_get_path_cached P dir ++ "/" ++ "pre-" ++ "XXXXXX" ++ ".suf")
        (O_WRONLY ||| O_BINARY) mode w.fs).1 = .ok (name, fd) →
      fills_template (ot_gfile_get_path_cached P dir ++ "/" ++ "pre-" ++ "XXXXXX" ++ ".suf") name →
      ∃ base : String,
        name = ot_gfile_get_path_cached P dir ++ "/" ++ base ∧
        '/' ∉ base.data ∧ "pre-".data <+: base.data ∧ ".suf".data <:+ base.data ∧
        (ot_gfile_create_tmp P dir (some "pre-") (some ".suf") mode want_file want_stream
          cancellable w).1.ret = true ∧
        (want_file = true →
          (ot_gfile_create_tmp P dir (some "pre-") (some ".suf") mode want_file want_stream
            cancellable w).1.out_file = some (ot_gfile_new_for_path P name))) := by
  refine ⟨?_, ?_⟩
  · intro pfx sfx
    simp only [ot_gfile_create_tmp, hcancel, tmp_name_template]
    cases hcall : (P.g_mkstemp_full
        (ot_gfile_get_path_cached P dir ++ "/" ++
          (match pfx with
            | some p => p
            | none => "tmp-") ++ "XXXXXX" ++
          (match sfx with
            | some s => s
            | none => ".tmp"))
        (O_WRONLY ||| O_BINARY) mode w.fs).1 with
    | error errno => exact ⟨[], by simp, by simp⟩
    | ok nf =>
      obtain ⟨name, fd⟩ := nf
      cases want_stream with
      | true => exact ⟨[], by simp, by simp⟩
      | false => exact ⟨[Call.close fd], by simp [World.log], by simp⟩
  · intro name fd hcall hfill
    obtain ⟨r, hlen, halnum, hr⟩ := hfill
    have hdata : (ot_gfile_get_path_cached P dir ++ "/" ++ "pre-" ++ "XXXXXX" ++ ".suf").data
        = (ot_gfile_get_path_cached P dir).data ++ "/pre-XXXXXX.suf".data := by
      simp [String.data_append]
    rw [hdata, fill_last_named, Option.some.injEq] at hr
    have hslash : '/' ∉ r := by
      intro h
      have := halnum '/' h
      revert this
      decide
    refine ⟨String.mk ("pre-".data ++ r ++ ".suf".data), ?_, ?_, ?_, ?_, ?_, ?_⟩
    · apply String.ext
      rw [← hr]
      simp [String.data_append]
    · simp only [List.mem_append, not_or]
      exact ⟨⟨by decide, hslash⟩, by decide⟩
    · exact ⟨r ++ ".suf".data, by simp⟩
    · exact ⟨"pre-".data ++ r, by simp⟩
    · simp [ot_gfile_create_tmp, hcancel, tmp_name_template, hcall]
    · intro hw
      simp [ot_gfile_create_tmp, hcancel, tmp_name_template, hcall, hw]

/-- C7 at a concrete input: `/tmp`, prefix `pre-`, suffix `.suf`, mode 0600. -/
theorem create_tmp_name_template_witness :
    (ot_gfile_create_tmp mem ["tmp"] (some "pre-") (some ".suf") 384 true true none
        { fs := fs_tmp, trace := [] }).2.trace
      = [Call.mkstemp_full "/tmp/pre-XXXXXX.suf" 1 384] ∧
    (ot_gfile_create_tmp mem ["tmp"] (some "pre-") (some ".suf") 384 true true none
        { fs := fs_tmp, trace := [] }).1.out_file = some ["tmp", "pre-abc123.suf"] ∧
    ∃ base : String, "/tmp/pre-abc123.suf" = "/tmp" ++ "/" ++ base ∧ '/' ∉ base.data ∧
      "pre-".data <+: base.data ∧ ".suf".data <:+ base.data := by
  have h := create_tmp_name_template mem ["tmp"] 384 true true none
    { fs := fs_tmp, trace := [] } rfl
  refine ⟨by decide, by decide, ?_⟩
  obtain ⟨base, h1, h2, h3, h4, _, _⟩ := h.2 "/tmp/pre-abc123.suf" 3 rfl
    ⟨['a', 'b', 'c', '1', '2', '3'], by decide, by decide, by decide⟩
  exact ⟨base, h1, h2, h3, h4⟩

/-- C8. `ot_gfile_ensure_directory` issues one call, the recursive make-directory
when `with_parents` is set and the single-level one otherwise, and returns
`TRUE` exactly when that call succeeded or failed with the already-exists
error; on any other failure it returns `FALSE` with the call's error unchanged.
Over the in-memory provider, on every path that exists, whatever is there, the
call succeeds and leaves the filesystem as it was; and after a successful call
a second call on the same path succeeds. -/
theorem ensure_directory_succeeds_iff :
    (∀ (σ F : Type) (P : Provider σ F) (dir : F) (with_parents : Bool) (w : World σ F),
      (ot_gfile_ensure_directory P dir with_parents w).2
        = { fs := ((if with_parents then P.g_file_make_directory_with_parents dir none w.fs
                   else P.g_file_make_directory dir none w.fs)).2,
            trace := w.trace ++ [if with_parents then Call.make_directory_with_parents dir
              else Call.make_directory dir] } ∧
      ((ot_gfile_ensure_directory P dir with_parents w).1.ret = true ↔
        ((if with_parents then P.g_file_make_directory_with_parents dir none w.fs
          else P.g_file_make_directory dir none w.fs).1 = .ok () ∨
         ∃ e, (if with_parents then P.g_file_make_directory_with_parents dir none w.fs
            else P.g_file_make_directory dir none w.fs).1 = .error e ∧
           e.domain = G_IO_ERROR ∧ e.code = G_IO_ERROR_EXISTS)) ∧
      ((ot_gfile_ensure_directory P dir with_parents w).1.ret = true →
        (ot_gfile_ensure_directory P dir with_parents w).1.error = none) ∧
      (∀ e, (if with_parents then P.g_file_make_directory_with_parents dir none w.fs
            else P.g_file_make_directory dir none w.fs).1 = .error e →
        ¬ (e.domain = G_IO_ERROR ∧ e.code = G_IO_ERROR_EXISTS) →
        (ot_gfile_ensure_directory P dir with_parents w).1
          = { ret := false, error := some e })) ∧
    (∀ (p : Path) (n : Node) (w : World MemFS Path), lookup w.fs.entries p = some n →
      (ot_gfile_ensure_directory mem p false w).1 = { ret := true, error := none } ∧
      (ot_gfile_ensure_directory mem p false w).2.fs = w.fs) ∧
    (∀ (p : Path) (first second : Bool) (w : World MemFS Path),
      wf_table w.fs.entries = true →
      (ot_gfile_ensure_directory mem p first w).1.ret = true →
      (ot_gfile_ensure_directory mem p second
        (ot_gfile_ensure_directory mem p first w).2).1 = { ret := true, error := none }) := by
  refine ⟨?_, ?_, ?_⟩
  · intro σ F P dir with_parents w
    have key : ∀ call : Except GError Unit × σ,
        (match call.1 with
          | .ok _ => (({ ret := true, error := none } : GResult),
              ({ fs := call.2, trace := w.trace ++
                [if with_parents then Call.make_directory_with_parents dir
                 else Call.make_directory dir] } : World σ F))
          | .error temp_error =>
            if !g_error_matches (some temp_error) G_IO_ERROR G_IO_ERROR_EXISTS then
              ({ ret := false, error := some temp_error },
                { fs := call.2, trace := w.trace ++
                  [if with_parents then Call.make_directory_with_parents dir
                   else Call.make_directory dir] })
            else
              ({ ret := true, error := none },
                { fs := call.2, trace := w.trace ++
                  [if with_parents then Call.make_directory_with_parents dir
                   else Call.make_directory dir] }))
          = ot_gfile_ensure_directory P dir with_parents w →
        call = (if with_parents then P.g_file_make_directory_with_parents dir none w.fs
          else P.g_file_make_directory dir none w.fs) →
        (ot_gfile_ensure_directory P dir with_parents w).2
          = { fs := call.2,
              trace := w.trace ++ [if with_parents then Call.make_directory_with_parents dir
                else Call.make_directory dir] } ∧
        ((ot_gfile_ensure_directory P dir with_parents w).1.ret = true ↔
          (call.1 = .ok () ∨
           ∃ e, call.1 = .error e ∧ e.domain = G_IO_ERROR ∧ e.code = G_IO_ERROR_EXISTS)) ∧
        ((ot_gfile_ensure_directory P dir with_parents w).1.ret = true →
          (ot_gfile_ensure_directory P dir with_parents w).1.error = none) ∧
        (∀ e, call.1 = .error e →
          ¬ (e.domain = G_IO_ERROR ∧ e.code = G_IO_ERROR_EXISTS) →
          (ot_gfile_ensure_directory P dir with_parents w).1
            = { ret := false, error := some e }) := by
      intro call hdef _
      rw [← hdef]
      obtain ⟨res, fs1⟩ := call
      cases res with
      | ok u => simp
      | error e =>
        by_cases hm : e.domain = G_IO_ERROR ∧ e.code = G_IO_ERROR_EXISTS
        · simp [g_error_matches, hm]
        · have hm3 : ¬ e.domain = G_IO_ERROR ∨ ¬ e.code = G_IO_ERROR_EXISTS := not_and_or.mp hm
          have hm2 := hm
          rw [not_and] at hm2
          simp [g_error_matches, hm3]
          exact hm2
    exact key _ rfl rfl
  · intro p n w h
    rw [ensure_directory_of_exists p n false w h]
    exact ⟨rfl, rfl⟩
  · intro p first second w hwf h
    have hroot : lookup w.fs.entries [] ≠ none := by
      rw [(wf_table_is_tree _ hwf).1]
      simp
    have hex := exists_of_ensure_directory p first w hroot h
    cases hl : lookup (ot_gfile_ensure_directory mem p first w).2.fs.entries p with
    | none => exact absurd hl hex
    | some n => rw [ensure_directory_of_exists p n second _ hl]

/-- C8 at concrete inputs: `/A/f1` is a regular file, `/A/new/deep` does not exist. -/
theorem ensure_directory_succeeds_iff_witness :
    (ot_gfile_ensure_directory mem ["A", "f1"] false (mem_world table_overwrite)).1
      = { ret := true, error := none } ∧
    (ot_gfile_ensure_directory mem ["A", "f1"] false (mem_world table_overwrite)).2.fs
      = mem_fs table_overwrite ∧
    (ot_gfile_ensure_directory mem ["A", "new", "deep"] true (mem_world table_overwrite)).1.ret
      = true ∧
    (ot_gfile_ensure_directory mem ["A", "new", "deep"] true
      (ot_gfile_ensure_directory mem ["A", "new", "deep"] true
        (mem_world table_overwrite)).2).1 = { ret := true, error := none } ∧
    (ot_gfile_ensure_directory mem ["A", "new", "deep"] false (mem_world table_overwrite)).1
      = { ret := false,
          error := some { domain := G_IO_ERROR, code := G_IO_ERROR_NOT_FOUND,
                          message := "No such file or directory" } } := by
  have h1 := ensure_directory_succeeds_iff.2.1 ["A", "f1"] (Node.regular (bytes "old") "t0")
    (mem_world table_overwrite) (by decide)
  have h2 := ensure_directory_succeeds_iff.2.2 ["A", "new", "deep"] true true
    (mem_world table_overwrite) (by decide) (by decide)
  have h3 := (ensure_directory_succeeds_iff.1 MemFS Path mem ["A", "new", "deep"] false
    (mem_world table_overwrite)).2.2.2
    { domain := G_IO_ERROR, code := G_IO_ERROR_NOT_FOUND, message := "No such file or directory" }
    rfl (by decide)
  exact ⟨h1.1, h1.2, by decide, h2, h3⟩

/-- C9 at a concrete input: `f1` is merged, the directory `d` meets a regular file
`/A/d` and fails, `f2` is never touched. -/
theorem merge_dirs_stops_at_failing_child_witness :
    (ot_gfile_merge_dirs mem 2 ["A"] ["B"] none (mem_world table_partial)).map
        (fun p => (p.1, p.2.fs.entries, p.2.trace))
      = some ({ ret := false,
                error := some
                  { domain := G_IO_ERROR, code := G_IO_ERROR_FAILED,
                    message :=
                      "Attempting to replace non-directory /A/d with directory /B/d" } },
              [([], Node.directory), (["A"], Node.directory), (["B"], Node.directory),
               (["A", "d"], Node.regular (bytes "file") "t0"),
               (["B", "d"], Node.directory),
               (["B", "d", "g"], Node.regular (bytes "deep") "t2"),
               (["B", "f2"], Node.regular (bytes "two") "t3"),
               (["A", "f1"], Node.regular (bytes "one") "t1")],
              [Call.query_info ["A"] mem.fast_queryinfo G_FILE_QUERY_INFO_NOFOLLOW_SYMLINKS,
               Call.enumerate_children ["B"] mem.fast_queryinfo
                 G_FILE_QUERY_INFO_NOFOLLOW_SYMLINKS,
               Call.next_file ["B"], Call.move ["B", "f1"] ["A", "f1"] 13,
               Call.next_file ["B"],
               Call.query_info ["A", "d"] mem.fast_queryinfo
                 G_FILE_QUERY_INFO_NOFOLLOW_SYMLINKS]) := by
  have h := (merge_dirs_stops_at_failing_child mem 1 ["A"] ["B"] none
    (mem_world table_partial) _ _
    { type := G_FILE_TYPE_DIRECTORY, name := "A" }
    { pending := [{ type := G_FILE_TYPE_REGULAR, name := "f1" },
        { type := G_FILE_TYPE_DIRECTORY, name := "d" },
        { type := G_FILE_TYPE_REGULAR, name := "f2" }], final := none }
    [{ type := G_FILE_TYPE_REGULAR, name := "f1" }]
    [{ type := G_FILE_TYPE_REGULAR, name := "f2" }]
    { type := G_FILE_TYPE_DIRECTORY, name := "d" } _
    rfl rfl rfl rfl rfl rfl rfl).1
  rw [h]
  decide

/-- C10 at a concrete input: the only child of `/B` is a symbolic link to the
directory `/T`; it is moved to `/A/ln` and `/T` is left alone. -/
theorem merge_dirs_recurses_only_into_directories_witness :
    (ot_gfile_merge_dirs mem 1 ["A"] ["B"] none (mem_world table_links)).map
        (fun p => (p.1, p.2.fs.entries, p.2.trace))
      = some ({ ret := true, error := none },
              [([], Node.directory), (["A"], Node.directory), (["B"], Node.directory),
               (["T"], Node.directory), (["T", "x"], Node.regular (bytes "x") "t0"),
               (["A", "ln"], Node.symlink "/T")],
              [Call.query_info ["A"] mem.fast_queryinfo G_FILE_QUERY_INFO_NOFOLLOW_SYMLINKS,
               Call.enumerate_children ["B"] mem.fast_queryinfo
                 G_FILE_QUERY_INFO_NOFOLLOW_SYMLINKS,
               Call.next_file ["B"], Call.move ["B", "ln"] ["A", "ln"] 13,
               Call.next_file ["B"]]) := by
  obtain ⟨h1, _, h3, _, _⟩ := merge_dirs_recurses_only_into_directories mem 0 ["A"] ["B"] none
    (mem_world table_links) _
    { type := G_FILE_TYPE_DIRECTORY, name := "A" }
    { pending := [{ type := G_FILE_TYPE_SYMBOLIC_LINK, name := "ln" }], final := none }
    [] [] { type := G_FILE_TYPE_SYMBOLIC_LINK, name := "ln" }
    rfl rfl rfl rfl rfl
  rw [h1, h3 (by decide)]
  decide

end Memory

end OtGio
